import Mathlib

/-!
# RCLValidations: ledger ancestry views, `mismatch`, `acquire` and `handleNewValidation`

A shallow embedding of `src/ripple/app/consensus/RCLValidations.cpp`.

* `Seq` is the unsigned 32-bit ledger index: values are natural numbers below
  `SEQ_MOD = 2^32`, and every `-`, `+`, `--` of the source on that type is
  written with an explicit reduction modulo `SEQ_MOD`.
* `std::size_t` is 64 bits wide: `ancestors_.size() - diff` is reduced modulo
  `SIZE_MOD = 2^64`.
* `ID` (a 256-bit hash) is only ever compared with `==` and `!=` in this file
  of the source, so it is embedded as a natural number; `ID{0}` is `0`.
* Indexing `ancestors_` is fallible: an out-of-range index is `none`.
-/

namespace ripple

/-- Modulus of the unsigned 32-bit type `Seq` (`LedgerIndex`). -/
abbrev SEQ_MOD : Nat := 4294967296

/-- Modulus of `std::size_t`. -/
abbrev SIZE_MOD : Nat := 18446744073709551616

/-- Ledger hash `ID` (`uint256`); only equality is used on it. -/
abbrev ID : Type := Nat

/-- The value `ID{0}`, the default id "that is less than all others". -/
abbrev ID_ZERO : ID := 0

/-- Subtraction on `Seq`, as unsigned 32-bit arithmetic computes it. -/
def seqSub (x y : Nat) : Nat := (x + SEQ_MOD - y % SEQ_MOD) % SEQ_MOD

/-- Addition on `Seq`, as unsigned 32-bit arithmetic computes it. -/
def seqAdd (x y : Nat) : Nat := (x + y) % SEQ_MOD

/-- Subtraction on `std::size_t`, as unsigned 64-bit arithmetic computes it. -/
def sizeSub (x y : Nat) : Nat := (x + SIZE_MOD - y % SIZE_MOD) % SIZE_MOD

/-- The data members of `RCLValidatedLedger` that the code reads: `ledgerID_`,
`ledgerSeq_` and `ancestors_`. The two bounds are those of the member types
(a 32-bit sequence, a vector whose size fits `std::size_t`). -/
structure RCLValidatedLedger where
  ledgerID_ : ID
  ledgerSeq_ : Nat
  ancestors_ : List ID
  seq_lt : ledgerSeq_ < SEQ_MOD
  size_lt : ancestors_.length < SIZE_MOD

namespace RCLValidatedLedger

/-- The constructor `RCLValidatedLedger(MakeGenesis)`: `ledgerID_{0}`,
`ledgerSeq_{0}`, and `ancestors_` default-constructed (empty). -/
def MakeGenesis : RCLValidatedLedger :=
  { ledgerID_ := ID_ZERO, ledgerSeq_ := 0, ancestors_ := [],
    seq_lt := by decide, size_lt := by decide }

/-- The accessor `seq()`. -/
def seq (a : RCLValidatedLedger) : Nat := a.ledgerSeq_

/-- The accessor `id()`. -/
def id (a : RCLValidatedLedger) : ID := a.ledgerID_

/-- The method `minSeq()`:
`seq() - std::min(seq(), static_cast<Seq>(ancestors_.size()))`. -/
def minSeq (a : RCLValidatedLedger) : Nat :=
  seqSub a.seq (min a.seq (a.ancestors_.length % SEQ_MOD))

/-- What one call of `operator[]` did: the value it returned (`none` when it
indexed `ancestors_` out of range) and the indices of `ancestors_` it read. -/
structure Lookup where
  value : Option ID
  reads : List Nat
deriving DecidableEq, Repr

/-- The body of `operator[](s)`, with the reads of `ancestors_` recorded. -/
def operatorIndex (a : RCLValidatedLedger) (s : Nat) : Lookup :=
  if s ≥ a.minSeq ∧ s ≤ a.seq then
    if s = a.seq then
      { value := some a.ledgerID_, reads := [] }
    else
      let diff := seqSub a.seq s
      let i := sizeSub a.ancestors_.length diff
      { value := a.ancestors_.get? i, reads := [i] }
  else
    { value := some ID_ZERO, reads := [] }

/-- The value `operator[](s)` returns: `(*this)[s]`. -/
def idAt (a : RCLValidatedLedger) (s : Nat) : Option ID := (a.operatorIndex s).value

/-- The id `operator[](s)` returns, for use where the lookup is known to
succeed (`idAt_eq_idOf`): the value of `idAt`, if any. -/
def idOf (a : RCLValidatedLedger) (s : Nat) : ID := (a.idAt s).getD ID_ZERO

end RCLValidatedLedger

/-- The loop condition of `mismatch`,
`curr != Seq{0} && a[curr] != b[curr] && curr >= lower`, with the
short-circuit evaluation of `&&`: neither view is indexed when `curr` is `0`.
The result is `none` if an `operator[]` call indexed out of range. -/
def walkCond (a b : RCLValidatedLedger) (lower curr : Nat) : Option Bool :=
  if curr ≠ 0 then
    match a.idAt curr, b.idAt curr with
    | some x, some y => if x ≠ y then some (decide (curr ≥ lower)) else some false
    | _, _ => none
  else
    some false

/-- The loop `while (cond) --curr;` of `mismatch`, run for at most `fuel`
evaluations of the condition from the cursor `curr`. It returns the cursor on
exit together with the number of decrements performed; `none` when the fuel
runs out or a lookup indexed out of range. The decrement is that of an
unsigned 32-bit cursor. -/
def walk (a b : RCLValidatedLedger) (lower : Nat) : Nat → Nat → Option (Nat × Nat)
  | 0, _ => none
  | fuel + 1, curr =>
    match walkCond a b lower curr with
    | none => none
    | some false => some (curr, 0)
    | some true =>
      match walk a b lower fuel (seqSub curr 1) with
      | none => none
      | some (c, n) => some (c, n + 1)

/-- The bound `lower = std::max(a.minSeq(), b.minSeq())` of `mismatch`. -/
def mismatchLower (a b : RCLValidatedLedger) : Nat := max a.minSeq b.minSeq

/-- The bound `upper = std::min(a.seq(), b.seq())` of `mismatch`. -/
def mismatchUpper (a b : RCLValidatedLedger) : Nat := min a.seq b.seq

/-- The walk of `mismatch(a, b)` from `curr = upper`: the final cursor and the
number of decrements. The loop is given `upper + 1` evaluations of its
condition, which `walk_fuel_irrelevant` shows to be as good as any larger
number. -/
def mismatchWalk (a b : RCLValidatedLedger) : Option (Nat × Nat) :=
  walk a b (mismatchLower a b) (mismatchUpper a b + 1) (mismatchUpper a b)

/-- The function `mismatch(a, b)`:
`(curr < lower) ? Seq{1} : (curr + Seq{1})` on the cursor the walk ends at. -/
def mismatch (a b : RCLValidatedLedger) : Option Nat :=
  match mismatchWalk a b with
  | none => none
  | some (curr, _) =>
    if curr < mismatchLower a b then some 1 else some (seqAdd curr 1)

/-- Whether `s` is a sequence of the reference definition's search range at
which the two views agree: `max(lower, 1) <= s` and `a[s] == b[s]`. -/
def agreesAt (a b : RCLValidatedLedger) (s : Nat) : Prop :=
  max (mismatchLower a b) 1 ≤ s ∧ a.idAt s = b.idAt s

instance (a b : RCLValidatedLedger) : DecidablePred (agreesAt a b) :=
  fun s => by unfold agreesAt; exact inferInstance

/-- Reference definition of `mismatch`, following the words of the
specification rather than the loop: `g + 1` for the greatest sequence `g`
with `max(lower, 1) <= g <= upper` at which the views agree, and `1` when
there is no such sequence. -/
def mismatchSpec (a b : RCLValidatedLedger) : Nat :=
  if ∃ s, s ≤ mismatchUpper a b ∧ agreesAt a b s then
    Nat.findGreatest (agreesAt a b) (mismatchUpper a b) + 1
  else
    1

/-! ## `handleNewValidation`

The collaborators (`ValidatorList`, `RCLValidations`, `LedgerMaster`) are
outside this file of the source; they are taken as parameters that act on an
arbitrary application state `σ`. Every call made to them is recorded, in
order, in a trace. The store's `add` takes the validation by reference to
const and returns a `ValStatus`: it may change the application state, not the
validation. -/

/-- Public keys (`PublicKey`), compared and passed on only. -/
abbrev PublicKey : Type := Nat

/-- Node identities (`NodeID`), produced by `calcNodeID`. -/
abbrev NodeID : Type := Nat

/-- The hash type `uint256` of `getLedgerHash()`. -/
abbrev uint256 : Type := Nat

/-- Modelled from the spec: the enumeration `ValStatus` is declared in the
generic `Validations` header, which is not part of the source at hand. The
code names `current` and `badSeq`; the spec lists `current`, `stale`/`badSeq`
"and other conflict/duplicate classifications", kept here as `other`. -/
inductive ValStatus where
  | current
  | stale
  | badSeq
  | other (tag : Nat)
deriving DecidableEq, Repr

/-- The fields of an `STValidation` that `handleNewValidation` reads or
writes. `ledgerSequence` is `none` when `sfLedgerSequence` is not present,
and otherwise holds what `getFieldU32(sfLedgerSequence)` returns. -/
structure STValidation where
  signerPublic : PublicKey
  ledgerHash : uint256
  ledgerSequence : Option Nat
  trusted : Bool
  full : Bool
deriving DecidableEq, Repr

namespace STValidation

/-- The method `isTrusted()`. -/
def isTrusted (val : STValidation) : Bool := val.trusted

/-- The method `setTrusted()`. -/
def setTrusted (val : STValidation) : STValidation := { val with trusted := true }

end STValidation

/-- Which streams of the journal are active: `j.error()`, `j.warn()` and
`j.debug()` converted to `bool`. -/
structure Journal where
  error : Bool
  warn : Bool
  debug : Bool
deriving DecidableEq, Repr

/-- Severity of a log line. -/
inductive Severity where
  | error
  | warn
  | debug
deriving DecidableEq, Repr

/-- The message part of the log lines `handleNewValidation` writes. -/
inductive LogMsg where
  | missingSeq
  | outcome (o : ValStatus)
  | alreadyValidated (seq : Nat)
  | unlisted
deriving DecidableEq, Repr

/-- One observable action of `handleNewValidation`. A log line written through
`dmp` ends in ` src=` and the source label; the line for an unlisted signer
is written directly and carries no label. -/
inductive Event where
  | getTrustedKey (signingKey : PublicKey)
  | setTrusted
  | getListedKey (signingKey : PublicKey)
  | add (node : NodeID) (val : STValidation)
  | checkAccept (hash : uint256) (seq : Nat)
  | log (sev : Severity) (msg : LogMsg) (source : Option String)
deriving DecidableEq, Repr

/-- The collaborators reached through `Application& app`, acting on a state
`σ`: `app.validators().getTrustedKey`, `app.validators().getListedKey`,
`app.getValidations().add`, `app.getLedgerMaster().checkAccept`, the free
function `calcNodeID`, and the journal of the validations adaptor. -/
structure Application (σ : Type) where
  getTrustedKey : PublicKey → σ → Option PublicKey × σ
  getListedKey : PublicKey → σ → Option PublicKey × σ
  add : NodeID → STValidation → σ → ValStatus × σ
  checkAccept : uint256 → Nat → σ → σ
  calcNodeID : PublicKey → NodeID
  journal : Journal

/-- State of `handleNewValidation` after trust resolution (source lines
158-166): the seated or empty `masterKey`, the validation with its trusted
flag as it now stands, the application state, and the calls made. -/
structure Resolved (σ : Type) where
  masterKey : Option PublicKey
  val : STValidation
  state : σ
  trace : List Event

/-- Lines 158-166 of `handleNewValidation`: look up the trusted master key,
mark the validation trusted if one is found and it was not marked yet, and
look up the listed master key only if no trusted one was found. -/
def resolveTrust {σ : Type} (app : Application σ) (val : STValidation) (st : σ) :
    Resolved σ :=
  let signingKey := val.signerPublic
  let trustedLookup := app.getTrustedKey signingKey st
  let masterKey := trustedLookup.1
  let st1 := trustedLookup.2
  let tr1 := [Event.getTrustedKey signingKey]
  let marked : STValidation × List Event :=
    if !val.isTrusted && masterKey.isSome then (val.setTrusted, tr1 ++ [Event.setTrusted])
    else (val, tr1)
  if masterKey.isNone then
    let listedLookup := app.getListedKey signingKey st1
    { masterKey := listedLookup.1, val := marked.1, state := listedLookup.2,
      trace := marked.2 ++ [Event.getListedKey signingKey] }
  else
    { masterKey := masterKey, val := marked.1, state := st1, trace := marked.2 }

/-- What one call of `handleNewValidation` did: the returned `shouldRelay`,
the validation as the call left it, the application state, and the calls
made, in order. -/
structure Handled (σ : Type) where
  shouldRelay : Bool
  val : STValidation
  state : σ
  trace : List Event

/-- The function `handleNewValidation(app, val, source)`. -/
def handleNewValidation {σ : Type} (app : Application σ) (val : STValidation)
    (source : String) (st : σ) : Handled σ :=
  let hash := val.ledgerHash
  let r := resolveTrust app val st
  let j := app.journal
  match r.val.ledgerSequence with
  | none =>
    { shouldRelay := false, val := r.val, state := r.state,
      trace := r.trace ++
        (if j.error then [Event.log Severity.error LogMsg.missingSeq (some source)] else []) }
  | some seq =>
    match r.masterKey with
    | some masterKey =>
      let node := app.calcNodeID masterKey
      let added := app.add node r.val r.state
      let outcome := added.1
      let tr1 := r.trace ++ [Event.add node r.val] ++
        (if j.debug then [Event.log Severity.debug (LogMsg.outcome outcome) (some source)] else [])
      let tr2 := tr1 ++
        (if outcome = ValStatus.badSeq ∧ j.warn = true then
          [Event.log Severity.warn (LogMsg.alreadyValidated seq) (some source)] else [])
      if r.val.isTrusted = true ∧ outcome = ValStatus.current then
        { shouldRelay := true, val := r.val, state := app.checkAccept hash seq added.2,
          trace := tr2 ++ [Event.checkAccept hash seq] }
      else
        { shouldRelay := false, val := r.val, state := added.2, trace := tr2 }
    | none =>
      { shouldRelay := false, val := r.val, state := r.state,
        trace := r.trace ++
          (if j.debug then [Event.log Severity.debug LogMsg.unlisted none] else []) }

/-- Whether an event is a call of `LedgerMaster::checkAccept`. -/
def Event.isCheckAccept : Event → Bool
  | Event.checkAccept _ _ => true
  | _ => false

/-- Whether an event is a call of the store's `add`. -/
def Event.isAdd : Event → Bool
  | Event.add _ _ => true
  | _ => false

/-- The calls made, up to and including the log lines that follow `add`, when
the field is present and a master key is seated. -/
def addTrace {σ : Type} (app : Application σ) (val : STValidation) (source : String)
    (st : σ) (seq : Nat) (mk : PublicKey) : List Event :=
  (resolveTrust app val st).trace
    ++ [Event.add (app.calcNodeID mk) (resolveTrust app val st).val]
    ++ (if app.journal.debug then
          [Event.log Severity.debug (LogMsg.outcome
            (app.add (app.calcNodeID mk) (resolveTrust app val st).val
              (resolveTrust app val st).state).1) (some source)] else [])
    ++ (if (app.add (app.calcNodeID mk) (resolveTrust app val st).val
              (resolveTrust app val st).state).1 = ValStatus.badSeq
            ∧ app.journal.warn = true then
          [Event.log Severity.warn (LogMsg.alreadyValidated seq) (some source)] else [])

/-! ## `RCLValidationsAdaptor::acquire`

The ledger store (`LedgerMaster::getLedgerByHash`) is a partial map from hash
to ledger and the job queue records the jobs added to it. The source states
its invariants with `assert`, which a build with `NDEBUG` compiles out: the
flag `ndebug` says which build runs, and a failed assertion aborts the call. -/

/-- The skip-list entry `ledger->read(keylet::skip())` as the constructor
reads it: `getFieldU32(sfLastLedgerSequence)` and
`getFieldV256(sfHashes).value()`, a vector whose size fits `std::size_t`. -/
structure SkipList where
  lastLedgerSequence : Nat
  hashes : List ID
  size_lt : hashes.length < SIZE_MOD

/-- The parts of a `Ledger` that this file of the source reads: `info().hash`,
`seq()` (32 bits), `open()`, `isImmutable()` and the skip-list entry, absent
when `read` returns null. -/
structure Ledger where
  hash : uint256
  seq : Nat
  isOpen : Bool
  isImmutable : Bool
  skip : Option SkipList
  seq_lt : seq < SEQ_MOD

/-- The outcome of code that may fail an assertion. -/
inductive Ran (α : Type) where
  | aborted
  | returned (value : α)

/-- Modelled from the spec: the job types are declared with the job queue,
outside the source at hand; the code names `jtADVANCE`. -/
inductive JobType where
  | jtADVANCE
  | other (tag : Nat)
deriving DecidableEq, Repr

/-- Modelled from the spec: `InboundLedger::Reason` is declared outside the
source at hand; the code names `CONSENSUS`. -/
inductive Reason where
  | CONSENSUS
  | other (tag : Nat)
deriving DecidableEq, Repr

/-- The body of the job `acquire` enqueues: the call
`getInboundLedgers().acquire(hash, seq, reason)` it will make. -/
structure InboundAcquire where
  hash : uint256
  seq : Nat
  reason : Reason
deriving DecidableEq, Repr

/-- The log lines of the constructor and of `acquire`. -/
inductive AcquireLog where
  | missingAncestors (seq : Nat) (id : ID)
  | needLedger (hash : uint256)
deriving DecidableEq, Repr

/-- One observable action of `acquire`. -/
inductive AcquireEvent where
  | getLedgerByHash (hash : uint256)
  | log (sev : Severity) (msg : AcquireLog)
  | addJob (type : JobType) (name : String) (job : InboundAcquire)
deriving DecidableEq, Repr

/-- Whether an event is a call of `JobQueue::addJob`. -/
def AcquireEvent.isAddJob : AcquireEvent → Bool
  | AcquireEvent.addJob _ _ _ => true
  | _ => false

/-- The constructor `RCLValidatedLedger(ledger, j)`: id and sequence of the
ledger, and the hashes of its skip-list entry as ancestors, after asserting
`getFieldU32(sfLastLedgerSequence) == seq() - 1`; without the entry a warning
is logged and the ancestors stay empty. -/
def RCLValidatedLedger.ofLedger (ndebug : Bool) (ledger : Ledger) (j : Journal) :
    Ran (RCLValidatedLedger × List AcquireEvent) :=
  match ledger.skip with
  | some hashIndex =>
    if ndebug = true ∨ hashIndex.lastLedgerSequence = seqSub ledger.seq 1 then
      Ran.returned
        ({ ledgerID_ := ledger.hash, ledgerSeq_ := ledger.seq,
           ancestors_ := hashIndex.hashes, seq_lt := ledger.seq_lt,
           size_lt := hashIndex.size_lt }, [])
    else
      Ran.aborted
  | none =>
    Ran.returned
      ({ ledgerID_ := ledger.hash, ledgerSeq_ := ledger.seq, ancestors_ := [],
         seq_lt := ledger.seq_lt, size_lt := by decide },
       if j.warn then
         [AcquireEvent.log Severity.warn
           (AcquireLog.missingAncestors ledger.seq ledger.hash)]
       else [])

/-- The members of `RCLValidationsAdaptor` that `acquire` uses: the ledger
store behind `app_` and the journal `j_`. -/
structure RCLValidationsAdaptor where
  getLedgerByHash : uint256 → Option Ledger
  j_ : Journal

/-- What one call of `acquire` did: whether it returned and what, and the
calls it made, in order. -/
structure Acquired where
  result : Ran (Option RCLValidatedLedger)
  events : List AcquireEvent

/-- The method `RCLValidationsAdaptor::acquire(hash)`. -/
def RCLValidationsAdaptor.acquire (ndebug : Bool) (self : RCLValidationsAdaptor)
    (hash : uint256) : Acquired :=
  match self.getLedgerByHash hash with
  | none =>
    { result := Ran.returned none,
      events := [AcquireEvent.getLedgerByHash hash]
        ++ (if self.j_.debug then
              [AcquireEvent.log Severity.debug (AcquireLog.needLedger hash)] else [])
        ++ [AcquireEvent.addJob JobType.jtADVANCE "getConsensusLedger"
              { hash := hash, seq := 0, reason := Reason.CONSENSUS }] }
  | some ledger =>
    if ndebug = true ∨ (ledger.isOpen = false ∧ ledger.isImmutable = true) then
      if ndebug = true ∨ ledger.hash = hash then
        match RCLValidatedLedger.ofLedger ndebug ledger self.j_ with
        | Ran.returned (view, logs) =>
          { result := Ran.returned (some view),
            events := [AcquireEvent.getLedgerByHash hash] ++ logs }
        | Ran.aborted =>
          { result := Ran.aborted, events := [AcquireEvent.getLedgerByHash hash] }
      else
        { result := Ran.aborted, events := [AcquireEvent.getLedgerByHash hash] }
    else
      { result := Ran.aborted, events := [AcquireEvent.getLedgerByHash hash] }

/-- The invariants the source asserts on the way to returning a view of
`ledger` for the request `hash`. -/
def assertsHold (ledger : Ledger) (hash : uint256) : Prop :=
  (ledger.isOpen = false ∧ ledger.isImmutable = true)
  ∧ ledger.hash = hash
  ∧ ∀ hashIndex, ledger.skip = some hashIndex →
      hashIndex.lastLedgerSequence = seqSub ledger.seq 1

/-! ## Concrete inputs

Views, collaborators and validations at which the theorems below are evaluated. -/

/-- A view at sequence 3 with the three ancestors of sequences 0, 1 and 2. -/
def viewA : RCLValidatedLedger :=
  { ledgerID_ := 9, ledgerSeq_ := 3, ancestors_ := [1, 2, 3],
    seq_lt := by decide, size_lt := by decide }

/-- Like `viewA` up to sequence 1, with another hash at sequence 2 and another id. -/
def viewB : RCLValidatedLedger :=
  { ledgerID_ := 8, ledgerSeq_ := 3, ancestors_ := [1, 2, 4],
    seq_lt := by decide, size_lt := by decide }

/-- Like `viewA` up to sequence 1, with another hash at sequence 2 and the same id. -/
def viewC : RCLValidatedLedger :=
  { ledgerID_ := 9, ledgerSeq_ := 3, ancestors_ := [1, 2, 4],
    seq_lt := by decide, size_lt := by decide }

/-- A view at sequence 10 that answers for sequences 8 to 10. -/
def viewHigh : RCLValidatedLedger :=
  { ledgerID_ := 7, ledgerSeq_ := 10, ancestors_ := [5, 6],
    seq_lt := by decide, size_lt := by decide }

/-- A view at the greatest 32-bit sequence, with no ancestors. -/
def viewMax : RCLValidatedLedger :=
  { ledgerID_ := 9, ledgerSeq_ := 4294967295, ancestors_ := [],
    seq_lt := by decide, size_lt := by decide }

/-- A trusted-key table: signing key 1 belongs to master key 100. -/
def exampleTrusted : PublicKey → Nat → Option PublicKey × Nat :=
  fun k st => (if k = 1 then some 100 else none, st)

/-- A listed-key table: signing key 2 belongs to master key 200. -/
def exampleListed : PublicKey → Nat → Option PublicKey × Nat :=
  fun k st => (if k = 2 then some 200 else none, st)

/-- A store for one validator whose state is the last sequence it admitted:
a greater sequence is `current`, any other is `badSeq`. -/
def exampleAdd : NodeID → STValidation → Nat → ValStatus × Nat :=
  fun _ val st =>
    match val.ledgerSequence with
    | some q => if st < q then (ValStatus.current, q) else (ValStatus.badSeq, st)
    | none => (ValStatus.stale, st)

/-- An acceptance check that leaves the state alone. -/
def exampleCheckAccept : uint256 → Nat → Nat → Nat := fun _ _ st => st

/-- Collaborators built from the tables above, with every log stream active. -/
def exampleApp : Application Nat :=
  { getTrustedKey := exampleTrusted, getListedKey := exampleListed, add := exampleAdd,
    checkAccept := exampleCheckAccept, calcNodeID := fun k => k + 1000,
    journal := { error := true, warn := true, debug := true } }

/-- A validation of ledger 77 at sequence 6, signed with key 1, not yet trusted. -/
def exampleVal : STValidation :=
  { signerPublic := 1, ledgerHash := 77, ledgerSequence := some 6, trusted := false,
    full := true }

/-- Like `exampleVal`, without the ledger-sequence field. -/
def exampleValNoSeq : STValidation :=
  { signerPublic := 1, ledgerHash := 77, ledgerSequence := none, trusted := false,
    full := true }

/-- A validation marked trusted on entry, signed with the unknown key 3. -/
def exampleValUnknown : STValidation :=
  { signerPublic := 3, ledgerHash := 77, ledgerSequence := some 6, trusted := true,
    full := true }

/-- A validation of ledger 77 at sequence 6 signed with the listed, not
trusted, key 2; its trusted flag is unset. -/
def exampleValListed : STValidation :=
  { signerPublic := 2, ledgerHash := 77, ledgerSequence := some 6, trusted := false,
    full := true }

/-- Like `exampleValListed`, with the trusted flag already set on entry. -/
def exampleValListedFlagged : STValidation :=
  { signerPublic := 2, ledgerHash := 77, ledgerSequence := some 6, trusted := true,
    full := true }

/-- Whether an event is a call of `getListedKey`. -/
def Event.isGetListedKey : Event → Bool
  | Event.getListedKey _ => true
  | _ => false

/-- A view at the greatest 32-bit sequence with one ancestor and the id of
`viewMax`. -/
def viewMaxB : RCLValidatedLedger :=
  { ledgerID_ := 9, ledgerSeq_ := 4294967295, ancestors_ := [4],
    seq_lt := by decide, size_lt := by decide }

/-- A view at sequence 2 whose id is the hash `viewA` holds for sequence 2,
with ancestors unrelated to those of `viewA`. -/
def viewAnc : RCLValidatedLedger :=
  { ledgerID_ := 3, ledgerSeq_ := 2, ancestors_ := [40, 50],
    seq_lt := by decide, size_lt := by decide }

/-- A closed ledger with hash 77 at sequence 3 and the hashes of sequences
0 to 2 in its skip list. -/
def exampleLedger : Ledger :=
  { hash := 77, seq := 3, isOpen := false, isImmutable := true,
    skip := some { lastLedgerSequence := 2, hashes := [1, 2, 3], size_lt := by decide },
    seq_lt := by decide }

/-- A store that holds `exampleLedger` and nothing else. -/
def exampleStore : uint256 → Option Ledger :=
  fun h => if h = 77 then some exampleLedger else none

/-- An adaptor over `exampleStore`, with every log stream active. -/
def exampleAdaptor : RCLValidationsAdaptor :=
  { getLedgerByHash := exampleStore, j_ := { error := true, warn := true, debug := true } }

/-- Like `exampleLedger`, with the same hash, but still open and mutable. -/
def exampleOpenLedger : Ledger :=
  { hash := 77, seq := 3, isOpen := true, isImmutable := false,
    skip := some { lastLedgerSequence := 2, hashes := [1, 2, 3], size_lt := by decide },
    seq_lt := by decide }

/-- A store that holds `exampleOpenLedger` and nothing else. -/
def exampleOpenStore : uint256 → Option Ledger :=
  fun h => if h = 77 then some exampleOpenLedger else none

/-- An adaptor over `exampleOpenStore`, with every log stream active. -/
def exampleOpenAdaptor : RCLValidationsAdaptor :=
  { getLedgerByHash := exampleOpenStore,
    j_ := { error := true, warn := true, debug := true } }

/-- Like `exampleLedger`, closed and immutable with the same hash, but with a
skip-list entry that names sequence 1, not 2, as the last ledger sequence. -/
def exampleSkewLedger : Ledger :=
  { hash := 77, seq := 3, isOpen := false, isImmutable := true,
    skip := some { lastLedgerSequence := 1, hashes := [1, 2, 3], size_lt := by decide },
    seq_lt := by decide }

/-- A store that holds `exampleSkewLedger` and nothing else. -/
def exampleSkewStore : uint256 → Option Ledger :=
  fun h => if h = 77 then some exampleSkewLedger else none

/-- An adaptor over `exampleSkewStore`, with every log stream active. -/
def exampleSkewAdaptor : RCLValidationsAdaptor :=
  { getLedgerByHash := exampleSkewStore,
    j_ := { error := true, warn := true, debug := true } }

/-! # Theorems -/

/-! ## Ancestry views: `minSeq` and `operator[]` -/

namespace RCLValidatedLedger

theorem seq_lt_mod (a : RCLValidatedLedger) : a.seq < SEQ_MOD := a.seq_lt

theorem minSeq_eq (a : RCLValidatedLedger) :
    a.minSeq = a.seq - min a.seq (a.ancestors_.length % SEQ_MOD) := by
  have h := a.seq_lt
  unfold minSeq seqSub seq
  simp only [SEQ_MOD] at *
  omega

theorem minSeq_le_seq (a : RCLValidatedLedger) : a.minSeq ≤ a.seq := by
  rw [minSeq_eq]; omega

/-- Inside the guard of `operator[]`, below `seq()`, the index computed in
`std::size_t` arithmetic is `size - (seq - s)`, and it is in range. -/
theorem index_in_range (a : RCLValidatedLedger) (s : Nat)
    (hlo : a.minSeq ≤ s) (hlt : s < a.seq) :
    sizeSub a.ancestors_.length (seqSub a.seq s)
        = a.ancestors_.length - (a.seq - s)
      ∧ a.ancestors_.length - (a.seq - s) < a.ancestors_.length := by
  have h := a.seq_lt
  have hs := a.size_lt
  rw [minSeq_eq] at hlo
  unfold sizeSub seqSub
  unfold seq at *
  simp only [SEQ_MOD, SIZE_MOD] at *
  omega

/-- The lookup `operator[]` never indexes `ancestors_` out of range: it
always returns a value. -/
theorem idAt_isSome (a : RCLValidatedLedger) (s : Nat) : ∃ x, a.idAt s = some x := by
  unfold idAt operatorIndex
  by_cases hg : s ≥ a.minSeq ∧ s ≤ a.seq
  · by_cases he : s = a.seq
    · exact ⟨a.ledgerID_, by subst he; simp [minSeq_le_seq a]⟩
    · have hlt : s < a.seq := lt_of_le_of_ne hg.2 he
      obtain ⟨hi, hb⟩ := index_in_range a s hg.1 hlt
      refine ⟨a.ancestors_.get ⟨_, hb⟩, ?_⟩
      simp only [hg, he, and_self, if_true, if_false, hi]
      exact List.get?_eq_get hb
  · exact ⟨ID_ZERO, by simp [hg]⟩

/-- A lookup outside `[minSeq(), seq()]` yields `ID{0}`. -/
theorem idAt_outside (a : RCLValidatedLedger) (s : Nat) (h : s < a.minSeq ∨ a.seq < s) :
    a.idAt s = some ID_ZERO := by
  unfold idAt operatorIndex
  have hg : ¬ (s ≥ a.minSeq ∧ s ≤ a.seq) := by omega
  simp [hg]

/-- A lookup at `seq()` yields the view's own id. -/
theorem idAt_seq (a : RCLValidatedLedger) : a.idAt a.seq = some a.id := by
  unfold idAt operatorIndex
  simp [minSeq_le_seq a, id]

/-- C1: for a sequence `s` with `minSeq() <= s <= seq()`, `operator[](s)` reads
`ancestors_` only at indices in range, and returns `id()` when `s == seq()`
and otherwise the element `ancestors_[size - (seq() - s)]`, whose index is in
range; and `operator[](seq())` is `id()`. -/
theorem operatorIndex_in_window (a : RCLValidatedLedger) (s : Nat)
    (hlo : a.minSeq ≤ s) (hhi : s ≤ a.seq) :
    (∀ i ∈ (a.operatorIndex s).reads, i < a.ancestors_.length)
    ∧ (s = a.seq → a.idAt s = some a.id)
    ∧ (s ≠ a.seq →
        a.ancestors_.length - (a.seq - s) < a.ancestors_.length
        ∧ a.idAt s = a.ancestors_.get? (a.ancestors_.length - (a.seq - s))
        ∧ (a.operatorIndex s).reads = [a.ancestors_.length - (a.seq - s)])
    ∧ a.idAt a.seq = some a.id := by
  have hg : s ≥ a.minSeq ∧ s ≤ a.seq := ⟨hlo, hhi⟩
  by_cases he : s = a.seq
  · refine ⟨?_, ?_, ?_, idAt_seq a⟩
    · subst he; simp [operatorIndex, minSeq_le_seq a]
    · intro _; rw [he]; exact idAt_seq a
    · intro hne; exact absurd he hne
  · have hlt : s < a.seq := lt_of_le_of_ne hhi he
    obtain ⟨hi, hb⟩ := index_in_range a s hlo hlt
    refine ⟨?_, ?_, ?_, idAt_seq a⟩
    · simp only [operatorIndex, hg, he, and_self, if_true, if_false, hi]
      intro i hmem
      rw [List.mem_singleton] at hmem
      rw [hmem]; exact hb
    · intro heq; exact absurd heq he
    · intro _
      refine ⟨hb, ?_, ?_⟩
      · simp only [idAt, operatorIndex, hg, he, and_self, if_true, if_false, hi]
      · simp only [operatorIndex, hg, he, and_self, if_true, if_false, hi]

/-- Witness for C1: sequence 1 of `viewA`, whose window is 0 to 3. -/
theorem operatorIndex_in_window_witness :
    viewA.minSeq ≤ 1 ∧ 1 ≤ viewA.seq ∧ viewA.idAt 1 = viewA.ancestors_.get? (3 - (3 - 1))
    ∧ viewA.idAt viewA.seq = some viewA.id :=
  ⟨by decide, by decide,
   ((RCLValidatedLedger.operatorIndex_in_window viewA 1 (by decide) (by decide)).2.2.1
      (by decide)).2.1,
   (RCLValidatedLedger.operatorIndex_in_window viewA 1 (by decide) (by decide)).2.2.2⟩

/-- C2: for a sequence `s` below `minSeq()` or above `seq()`, `operator[](s)`
returns `ID{0}` and reads no element of `ancestors_`. -/
theorem operatorIndex_out_of_window (a : RCLValidatedLedger) (s : Nat)
    (h : s < a.minSeq ∨ a.seq < s) :
    a.idAt s = some ID_ZERO ∧ (a.operatorIndex s).reads = [] := by
  refine ⟨idAt_outside a s h, ?_⟩
  have hg : ¬ (s ≥ a.minSeq ∧ s ≤ a.seq) := by omega
  simp [operatorIndex, hg]

/-- Witness for C2: sequence 5 is above the window of `viewA`, sequence 7 below
that of `viewHigh`. -/
theorem operatorIndex_out_of_window_witness :
    (viewA.idAt 5 = some ID_ZERO ∧ (viewA.operatorIndex 5).reads = [])
    ∧ (viewHigh.idAt 7 = some ID_ZERO ∧ (viewHigh.operatorIndex 7).reads = []) :=
  ⟨RCLValidatedLedger.operatorIndex_out_of_window viewA 5 (Or.inr (by decide)),
   RCLValidatedLedger.operatorIndex_out_of_window viewHigh 7 (Or.inl (by decide))⟩

end RCLValidatedLedger

/-! ## The walk of `mismatch` -/

theorem idAt_eq_idOf (a : RCLValidatedLedger) (s : Nat) : a.idAt s = some (a.idOf s) := by
  obtain ⟨x, hx⟩ := RCLValidatedLedger.idAt_isSome a s
  simp [RCLValidatedLedger.idOf, hx]

/-- The loop condition always evaluates, to the conjunction it spells. -/
theorem walkCond_eq (a b : RCLValidatedLedger) (lower curr : Nat) :
    walkCond a b lower curr
      = some (decide (curr ≠ 0 ∧ a.idOf curr ≠ b.idOf curr ∧ lower ≤ curr)) := by
  unfold walkCond
  rw [idAt_eq_idOf a curr, idAt_eq_idOf b curr]
  by_cases h0 : curr = 0
  · simp [h0]
  · by_cases hne : a.idOf curr = b.idOf curr
    · simp [h0, hne]
    · simp [h0, hne]

theorem walkCond_comm (a b : RCLValidatedLedger) (lower curr : Nat) :
    walkCond a b lower curr = walkCond b a lower curr := by
  rw [walkCond_eq, walkCond_eq]
  have : (a.idOf curr ≠ b.idOf curr) ↔ (b.idOf curr ≠ a.idOf curr) := ne_comm
  simp only [this]

theorem walk_comm (a b : RCLValidatedLedger) (lower : Nat) :
    ∀ (fuel curr : Nat), walk a b lower fuel curr = walk b a lower fuel curr := by
  intro fuel
  induction fuel with
  | zero => intro curr; rfl
  | succ f ih =>
    intro curr
    simp only [walk, walkCond_comm a b lower curr, ih]

/-- When the loop condition is false at `curr`, the walk stops there with no
decrement. -/
theorem walk_stop (a b : RCLValidatedLedger) (lower fuel curr : Nat)
    (h : walkCond a b lower curr = some false) :
    walk a b lower (fuel + 1) curr = some (curr, 0) := by
  simp only [walk, h]

/-- When the loop condition is true at `curr`, the walk decrements the cursor
and goes on. -/
theorem walk_step (a b : RCLValidatedLedger) (lower fuel curr : Nat)
    (h : walkCond a b lower curr = some true) :
    walk a b lower (fuel + 1) curr
      = (walk a b lower fuel (seqSub curr 1)).map (fun r => (r.1, r.2 + 1)) := by
  simp only [walk, h]
  cases walk a b lower fuel (seqSub curr 1) with
  | none => rfl
  | some r => rfl

/-- The decrement of a nonzero 32-bit cursor does not wrap. -/
theorem seqSub_one (curr : Nat) (h0 : curr ≠ 0) (hlt : curr < SEQ_MOD) :
    seqSub curr 1 = curr - 1 := by
  unfold seqSub
  simp only [SEQ_MOD] at *
  omega

/-- More fuel than the walk needs does not change its result. -/
theorem walk_fuel_irrelevant (a b : RCLValidatedLedger) (lower : Nat) :
    ∀ (fuel fuel2 curr : Nat) (r : Nat × Nat), fuel ≤ fuel2 →
      walk a b lower fuel curr = some r → walk a b lower fuel2 curr = some r := by
  intro fuel
  induction fuel with
  | zero => intro fuel2 curr r _ h; simp [walk] at h
  | succ f ih =>
    intro fuel2 curr r hle h
    obtain ⟨g, rfl⟩ : ∃ g, fuel2 = g + 1 := ⟨fuel2 - 1, by omega⟩
    have hfg : f ≤ g := by omega
    by_cases hc : (curr ≠ 0 ∧ a.idOf curr ≠ b.idOf curr ∧ lower ≤ curr)
    · have hw : walkCond a b lower curr = some true := by
        rw [walkCond_eq, decide_eq_true hc]
      rw [walk_step a b lower f curr hw] at h
      rw [walk_step a b lower g curr hw]
      cases hrec : walk a b lower f (seqSub curr 1) with
      | none => rw [hrec] at h; simp at h
      | some q =>
        rw [hrec] at h
        rw [ih g (seqSub curr 1) q hfg hrec]
        exact h
    · have hw : walkCond a b lower curr = some false := by
        rw [walkCond_eq, decide_eq_false hc]
      rw [walk_stop a b lower f curr hw] at h
      rw [walk_stop a b lower g curr hw]
      exact h

/-- The walk from a cursor `curr` below `2^32` ends within `curr + 1`
evaluations of its condition, at a cursor no greater than `curr`. -/
theorem walk_total (a b : RCLValidatedLedger) (lower : Nat) :
    ∀ (curr fuel : Nat), curr < fuel → curr < SEQ_MOD →
      ∃ c n, walk a b lower fuel curr = some (c, n) ∧ c + n = curr := by
  intro curr
  induction curr with
  | zero =>
    intro fuel hf _
    obtain ⟨g, rfl⟩ : ∃ g, fuel = g + 1 := ⟨fuel - 1, by omega⟩
    have hw : walkCond a b lower 0 = some false := by rw [walkCond_eq]; simp
    exact ⟨0, 0, walk_stop a b lower g 0 hw, rfl⟩
  | succ c ih =>
    intro fuel hf hlt
    obtain ⟨g, rfl⟩ : ∃ g, fuel = g + 1 := ⟨fuel - 1, by omega⟩
    by_cases hc : (c + 1 ≠ 0 ∧ a.idOf (c + 1) ≠ b.idOf (c + 1) ∧ lower ≤ c + 1)
    · have hw : walkCond a b lower (c + 1) = some true := by
        rw [walkCond_eq, decide_eq_true hc]
      have hdec : seqSub (c + 1) 1 = c := by
        rw [seqSub_one (c + 1) (by omega) hlt]; rfl
      obtain ⟨c2, n, hwalk, hsum⟩ := ih g (by omega) (by omega)
      refine ⟨c2, n + 1, ?_, by omega⟩
      rw [walk_step a b lower g (c + 1) hw, hdec, hwalk]
      rfl
    · have hw : walkCond a b lower (c + 1) = some false := by
        rw [walkCond_eq, decide_eq_false hc]
      exact ⟨c + 1, 0, walk_stop a b lower g (c + 1) hw, rfl⟩

/-- From a cursor `k + d`, if the views differ at every sequence in
`(k, k + d]`, all of them at or above `lower`, and the loop condition fails
at `k`, the walk makes exactly `d` decrements and ends at `k`. -/
theorem walk_down (a b : RCLValidatedLedger) (lower k : Nat)
    (hk : walkCond a b lower k = some false) :
    ∀ (d fuel : Nat), d < fuel → k + d < SEQ_MOD →
      (∀ s, k < s → s ≤ k + d → a.idOf s ≠ b.idOf s ∧ lower ≤ s) →
      walk a b lower fuel (k + d) = some (k, d) := by
  intro d
  induction d with
  | zero =>
    intro fuel hf _ _
    obtain ⟨g, rfl⟩ : ∃ g, fuel = g + 1 := ⟨fuel - 1, by omega⟩
    exact walk_stop a b lower g k hk
  | succ d ih =>
    intro fuel hf hlt hall
    obtain ⟨g, rfl⟩ : ∃ g, fuel = g + 1 := ⟨fuel - 1, by omega⟩
    have hc : (k + (d + 1) ≠ 0 ∧ a.idOf (k + (d + 1)) ≠ b.idOf (k + (d + 1))
        ∧ lower ≤ k + (d + 1)) := by
      obtain ⟨h1, h2⟩ := hall (k + (d + 1)) (by omega) (le_refl _)
      exact ⟨by omega, h1, h2⟩
    have hw : walkCond a b lower (k + (d + 1)) = some true := by
      rw [walkCond_eq, decide_eq_true hc]
    have hdec : seqSub (k + (d + 1)) 1 = k + d := by
      rw [seqSub_one (k + (d + 1)) (by omega) hlt]; omega
    have hrec := ih g (by omega) (by omega)
      (fun s h1 h2 => hall s h1 (by omega))
    rw [walk_step a b lower g (k + (d + 1)) hw, hdec, hrec]
    rfl

/-- The result of `mismatch` in terms of the cursor its walk ends at. -/
theorem mismatch_of_walk (a b : RCLValidatedLedger) (c n : Nat)
    (h : mismatchWalk a b = some (c, n)) :
    mismatch a b = if c < mismatchLower a b then some 1 else some (seqAdd c 1) := by
  simp only [mismatch, h]

theorem mismatchLower_comm (a b : RCLValidatedLedger) :
    mismatchLower a b = mismatchLower b a := by
  unfold mismatchLower; exact max_comm _ _

theorem mismatchUpper_comm (a b : RCLValidatedLedger) :
    mismatchUpper a b = mismatchUpper b a := by
  unfold mismatchUpper; exact min_comm _ _

theorem mismatchUpper_lt (a b : RCLValidatedLedger) : mismatchUpper a b < SEQ_MOD := by
  have := a.seq_lt
  unfold mismatchUpper RCLValidatedLedger.seq
  omega

/-- The walk of `mismatch` always ends: `mismatch` returns a sequence for
every pair of views. -/
theorem mismatch_total (a b : RCLValidatedLedger) : ∃ r, mismatch a b = some r := by
  obtain ⟨c, n, hw, _⟩ := walk_total a b (mismatchLower a b) (mismatchUpper a b)
    (mismatchUpper a b + 1) (by omega) (mismatchUpper_lt a b)
  have hm := mismatch_of_walk a b c n hw
  by_cases hc : c < mismatchLower a b
  · exact ⟨1, by rw [hm, if_pos hc]⟩
  · exact ⟨seqAdd c 1, by rw [hm, if_neg hc]⟩

/-! ## Claims about `mismatch` -/

/-- C3, as stated, fails: `viewA` and `viewC` agree at sequences 0 and 1 and
differ at sequence 2, all inside both windows, yet they agree again at
sequence 3, where the walk starts and stops, so `mismatch` returns 4, not 2. -/
theorem mismatch_first_difference_counterexample :
    max viewA.minSeq viewC.minSeq ≤ 1 ∧ 1 + 1 ≤ min viewA.seq viewC.seq
    ∧ (∀ s, max viewA.minSeq viewC.minSeq ≤ s → s ≤ 1 → viewA.idAt s = viewC.idAt s)
    ∧ viewA.idAt (1 + 1) ≠ viewC.idAt (1 + 1)
    ∧ mismatch viewA viewC = some 4
    ∧ mismatch viewA viewC ≠ some (1 + 1) := by
  refine ⟨by decide, by decide, ?_, by decide, by decide, by decide⟩
  intro s _ hs
  interval_cases s <;> decide

/-- C3 (amended): if `k` and `k+1` lie in both windows, the views agree at
every sequence of the common window up to `k`, and they differ at every
sequence from `k+1` up to `min(a.seq(), b.seq())`, then `mismatch(a, b)`
returns `k+1`. -/
theorem mismatch_first_difference (a b : RCLValidatedLedger) (k : Nat)
    (hlo : max a.minSeq b.minSeq ≤ k) (hhi : k + 1 ≤ min a.seq b.seq)
    (hagree : ∀ s, max a.minSeq b.minSeq ≤ s → s ≤ k → a.idAt s = b.idAt s)
    (hdiff : ∀ s, k + 1 ≤ s → s ≤ min a.seq b.seq → a.idAt s ≠ b.idAt s) :
    mismatch a b = some (k + 1) := by
  have hup := mismatchUpper_lt a b
  have hk : walkCond a b (mismatchLower a b) k = some false := by
    rw [walkCond_eq]
    apply congrArg
    apply decide_eq_false
    rintro ⟨_, hne, _⟩
    have := hagree k hlo (le_refl k)
    rw [idAt_eq_idOf, idAt_eq_idOf] at this
    exact hne (Option.some.inj this)
  obtain ⟨d, hd⟩ : ∃ d, mismatchUpper a b = k + d :=
    ⟨mismatchUpper a b - k, by unfold mismatchUpper; omega⟩
  have hw : mismatchWalk a b = some (k, d) := by
    unfold mismatchWalk
    rw [hd]
    apply walk_down a b (mismatchLower a b) k hk d (k + d + 1) (by omega) (by omega)
    intro s h1 h2
    refine ⟨?_, ?_⟩
    · have := hdiff s (by omega) (by rw [← hd] at h2; exact h2)
      rw [idAt_eq_idOf, idAt_eq_idOf] at this
      exact fun h => this (congrArg some h)
    · unfold mismatchLower; omega
  rw [mismatch_of_walk a b k d hw]
  have hnot : ¬ k < mismatchLower a b := by unfold mismatchLower; omega
  rw [if_neg hnot]
  have : seqAdd k 1 = k + 1 := by
    have h1 : k + 1 ≤ mismatchUpper a b := hhi
    unfold seqAdd
    apply Nat.mod_eq_of_lt
    omega
  rw [this]

/-- Witness for C3 (amended): `viewA` and `viewB` agree at sequences 0 and 1
and differ at sequences 2 and 3. -/
theorem mismatch_first_difference_witness : mismatch viewA viewB = some (1 + 1) :=
  mismatch_first_difference viewA viewB 1 (by decide) (by decide)
    (by intro s _ hs; interval_cases s <;> decide)
    (by
      intro s h1 h2
      have h3 : s ≤ 3 := h2
      interval_cases s <;> decide)

/-- The walk of `mismatch(a, a)` stops at once, at `a.seq()`. -/
theorem mismatchWalk_self (a : RCLValidatedLedger) : mismatchWalk a a = some (a.seq, 0) := by
  have hu : mismatchUpper a a = a.seq := by unfold mismatchUpper; exact min_self _
  unfold mismatchWalk
  rw [hu]
  apply walk_stop
  rw [walkCond_eq]
  apply congrArg
  apply decide_eq_false
  rintro ⟨_, hne, _⟩
  exact hne rfl

/-- A view compared with itself: the result is `a.seq() + 1` as 32-bit
arithmetic computes it. -/
theorem mismatch_self_mod (a : RCLValidatedLedger) : mismatch a a = some (seqAdd a.seq 1) := by
  rw [mismatch_of_walk a a a.seq 0 (mismatchWalk_self a)]
  have hnot : ¬ a.seq < mismatchLower a a := by
    have := RCLValidatedLedger.minSeq_le_seq a
    unfold mismatchLower
    omega
  rw [if_neg hnot]

/-- C4, as stated, fails at the greatest 32-bit sequence: for the view
`viewMax` (sequence `2^32 - 1`), `curr + Seq{1}` wraps and `mismatch` of the
view with itself returns 0, not `seq() + 1 = 2^32`. -/
theorem mismatch_self_counterexample :
    viewMax.seq + 1 = 4294967296 ∧ mismatch viewMax viewMax = some 0
    ∧ mismatch viewMax viewMax ≠ some (viewMax.seq + 1) := by
  have h := mismatch_self_mod viewMax
  have hs : viewMax.seq = 4294967295 := rfl
  have h0 : seqAdd viewMax.seq 1 = 0 := by rw [hs]; rfl
  rw [h0] at h
  refine ⟨by rw [hs], h, ?_⟩
  rw [h, hs]
  intro hc
  exact absurd (Option.some.inj hc) (by omega)

/-- C4 (amended): for every view `a` whose sequence is below `2^32 - 1`
(the genesis view and views without ancestors included), `mismatch(a, a)`
returns `a.seq() + 1`; for a view at sequence `2^32 - 1` it returns 0. -/
theorem mismatch_self (a : RCLValidatedLedger) :
    (a.seq < SEQ_MOD - 1 → mismatch a a = some (a.seq + 1))
    ∧ (a.seq = SEQ_MOD - 1 → mismatch a a = some 0) := by
  rw [mismatch_self_mod a]
  unfold seqAdd
  constructor
  · intro h
    rw [Nat.mod_eq_of_lt (by omega)]
  · intro h
    rw [h]
    rfl

/-- Witness for C4 (amended), at the genesis view and at a view with three
ancestors. -/
theorem mismatch_self_witness :
    mismatch RCLValidatedLedger.MakeGenesis RCLValidatedLedger.MakeGenesis = some 1
    ∧ mismatch viewA viewA = some 4 :=
  ⟨(mismatch_self RCLValidatedLedger.MakeGenesis).1 (by decide),
   (mismatch_self viewA).1 (by decide)⟩

/-- C5: `mismatch` is symmetric, `mismatch(a, b) == mismatch(b, a)`. -/
theorem mismatch_symm (a b : RCLValidatedLedger) : mismatch a b = mismatch b a := by
  unfold mismatch mismatchWalk
  rw [mismatchLower_comm a b, mismatchUpper_comm a b, walk_comm a b]

/-- C6: when the answerable ranges of two views do not overlap,
`mismatch(a, b)` returns 1, and its walk stops at `min(a.seq(), b.seq())`
after no decrement. -/
theorem mismatch_disjoint (a b : RCLValidatedLedger)
    (h : a.minSeq > b.seq ∨ b.minSeq > a.seq) :
    mismatch a b = some 1 ∧ mismatchWalk a b = some (min a.seq b.seq, 0) := by
  have ha := RCLValidatedLedger.minSeq_le_seq a
  have hb := RCLValidatedLedger.minSeq_le_seq b
  have hlt : mismatchUpper a b < mismatchLower a b := by
    unfold mismatchUpper mismatchLower
    omega
  have hw : mismatchWalk a b = some (mismatchUpper a b, 0) := by
    unfold mismatchWalk
    apply walk_stop
    rw [walkCond_eq]
    apply congrArg
    apply decide_eq_false
    rintro ⟨_, _, hle⟩
    omega
  refine ⟨?_, hw⟩
  rw [mismatch_of_walk a b _ 0 hw, if_pos hlt]

/-- Witness for C6: `viewHigh` answers for sequences 8 to 10, `viewA` for 0 to 3. -/
theorem mismatch_disjoint_witness :
    viewHigh.minSeq > viewA.seq
    ∧ mismatch viewHigh viewA = some 1
    ∧ mismatchWalk viewHigh viewA = some (min viewHigh.seq viewA.seq, 0) :=
  ⟨by decide, mismatch_disjoint viewHigh viewA (Or.inl (by decide))⟩

/-! ## Trust resolution -/

/-- Trust resolution leaves the ledger-sequence field as it was. -/
theorem resolveTrust_ledgerSequence {σ : Type} (app : Application σ) (val : STValidation)
    (st : σ) : (resolveTrust app val st).val.ledgerSequence = val.ledgerSequence := by
  unfold resolveTrust
  simp only []
  split <;> split <;> rfl

/-- Trust resolution leaves the ledger hash as it was. -/
theorem resolveTrust_ledgerHash {σ : Type} (app : Application σ) (val : STValidation)
    (st : σ) : (resolveTrust app val st).val.ledgerHash = val.ledgerHash := by
  unfold resolveTrust
  simp only []
  split <;> split <;> rfl

/-- With a trusted master key, `masterKey` is that key, the listed lookup is
not made, and the validation is marked trusted. -/
theorem resolveTrust_trusted {σ : Type} (app : Application σ) (val : STValidation)
    (st : σ) (mk : PublicKey) (h : (app.getTrustedKey val.signerPublic st).1 = some mk) :
    (resolveTrust app val st).masterKey = some mk
    ∧ (resolveTrust app val st).val = val.setTrusted
    ∧ (resolveTrust app val st).state = (app.getTrustedKey val.signerPublic st).2 := by
  unfold resolveTrust
  simp only [h, Option.isNone_some, Option.isSome_some, Bool.and_true, Bool.false_eq_true,
    if_false, STValidation.isTrusted]
  refine ⟨trivial, ?_, trivial⟩
  cases ht : val.trusted
  · simp
  · simp only [Bool.not_true, Bool.false_eq_true, if_false]
    cases val
    simp only [STValidation.setTrusted] at *
    rw [ht]

/-- Without a trusted master key, `masterKey` is what the listed lookup
returns and the validation is left as it was. -/
theorem resolveTrust_untrusted {σ : Type} (app : Application σ) (val : STValidation)
    (st : σ) (h : (app.getTrustedKey val.signerPublic st).1 = none) :
    (resolveTrust app val st).masterKey
        = (app.getListedKey val.signerPublic (app.getTrustedKey val.signerPublic st).2).1
    ∧ (resolveTrust app val st).val = val
    ∧ (resolveTrust app val st).state
        = (app.getListedKey val.signerPublic (app.getTrustedKey val.signerPublic st).2).2 := by
  unfold resolveTrust
  simp [h]

/-- Trust resolution calls neither the store nor the acceptance check. -/
theorem resolveTrust_trace {σ : Type} (app : Application σ) (val : STValidation) (st : σ) :
    ∀ e ∈ (resolveTrust app val st).trace, e.isAdd = false ∧ e.isCheckAccept = false := by
  unfold resolveTrust
  simp only []
  split <;> split <;> simp [Event.isAdd, Event.isCheckAccept]

/-! ## The branches of `handleNewValidation` -/

/-- The branch taken when `sfLedgerSequence` is not present. -/
theorem handle_missing {σ : Type} (app : Application σ) (val : STValidation)
    (source : String) (st : σ) (h : val.ledgerSequence = none) :
    handleNewValidation app val source st =
      { shouldRelay := false, val := (resolveTrust app val st).val,
        state := (resolveTrust app val st).state,
        trace := (resolveTrust app val st).trace ++
          (if app.journal.error then
            [Event.log Severity.error LogMsg.missingSeq (some source)] else []) } := by
  have h2 := resolveTrust_ledgerSequence app val st
  rw [h] at h2
  unfold handleNewValidation
  simp only [h2]

/-- The branch taken when the field is present and no master key is seated. -/
theorem handle_unlisted {σ : Type} (app : Application σ) (val : STValidation)
    (source : String) (st : σ) (seq : Nat) (h : val.ledgerSequence = some seq)
    (hm : (resolveTrust app val st).masterKey = none) :
    handleNewValidation app val source st =
      { shouldRelay := false, val := (resolveTrust app val st).val,
        state := (resolveTrust app val st).state,
        trace := (resolveTrust app val st).trace ++
          (if app.journal.debug then
            [Event.log Severity.debug LogMsg.unlisted none] else []) } := by
  have h2 := resolveTrust_ledgerSequence app val st
  rw [h] at h2
  unfold handleNewValidation
  simp only [h2, hm]

/-- The branch taken when the field is present and a master key is seated. -/
theorem handle_added {σ : Type} (app : Application σ) (val : STValidation)
    (source : String) (st : σ) (seq : Nat) (mk : PublicKey)
    (h : val.ledgerSequence = some seq)
    (hm : (resolveTrust app val st).masterKey = some mk) :
    handleNewValidation app val source st =
      if (resolveTrust app val st).val.isTrusted = true
          ∧ (app.add (app.calcNodeID mk) (resolveTrust app val st).val
              (resolveTrust app val st).state).1 = ValStatus.current then
        { shouldRelay := true, val := (resolveTrust app val st).val,
          state := app.checkAccept val.ledgerHash seq
            (app.add (app.calcNodeID mk) (resolveTrust app val st).val
              (resolveTrust app val st).state).2,
          trace := addTrace app val source st seq mk
            ++ [Event.checkAccept val.ledgerHash seq] }
      else
        { shouldRelay := false, val := (resolveTrust app val st).val,
          state := (app.add (app.calcNodeID mk) (resolveTrust app val st).val
              (resolveTrust app val st).state).2,
          trace := addTrace app val source st seq mk } := by
  have h2 := resolveTrust_ledgerSequence app val st
  rw [h] at h2
  unfold handleNewValidation addTrace
  simp only [h2, hm]

/-- Among the calls up to `add` and its log lines there is exactly one `add`
and no acceptance check. -/
theorem addTrace_calls {σ : Type} (app : Application σ) (val : STValidation)
    (source : String) (st : σ) (seq : Nat) (mk : PublicKey) :
    (addTrace app val source st seq mk).filter Event.isCheckAccept = []
    ∧ (addTrace app val source st seq mk).filter Event.isAdd
        = [Event.add (app.calcNodeID mk) (resolveTrust app val st).val] := by
  have ht := resolveTrust_trace app val st
  have h1 : (resolveTrust app val st).trace.filter Event.isCheckAccept = [] := by
    rw [List.filter_eq_nil_iff]
    intro e he
    simp [(ht e he).2]
  have h2 : (resolveTrust app val st).trace.filter Event.isAdd = [] := by
    rw [List.filter_eq_nil_iff]
    intro e he
    simp [(ht e he).1]
  unfold addTrace
  constructor
  · simp only [List.filter_append, h1]
    split <;> split <;> simp [List.filter, Event.isCheckAccept]
  · simp only [List.filter_append, h2]
    split <;> split <;> simp [List.filter, Event.isAdd]

/-! ## Claims about `handleNewValidation` -/

/-- C7: `handleNewValidation` returns true exactly when the ledger-sequence
field is present, a master key was seated by trust resolution, the store's
`add` returns `ValStatus::current`, and the validation is trusted after trust
resolution; `checkAccept` is called exactly when the result is true; and for
a signer with a trusted master key whose `add` returns `badSeq`, the result is
false and `checkAccept` is not called. -/
theorem handleNewValidation_relay_iff {σ : Type} (app : Application σ)
    (val : STValidation) (source : String) (st : σ) :
    ((handleNewValidation app val source st).shouldRelay = true ↔
      ∃ seq mk, val.ledgerSequence = some seq
        ∧ (resolveTrust app val st).masterKey = some mk
        ∧ (app.add (app.calcNodeID mk) (resolveTrust app val st).val
            (resolveTrust app val st).state).1 = ValStatus.current
        ∧ (resolveTrust app val st).val.isTrusted = true)
    ∧ ((∃ e ∈ (handleNewValidation app val source st).trace, e.isCheckAccept = true) ↔
        (handleNewValidation app val source st).shouldRelay = true)
    ∧ (∀ mk, (app.getTrustedKey val.signerPublic st).1 = some mk →
        (app.add (app.calcNodeID mk) (resolveTrust app val st).val
            (resolveTrust app val st).state).1 = ValStatus.badSeq →
        (handleNewValidation app val source st).shouldRelay = false
        ∧ ∀ e ∈ (handleNewValidation app val source st).trace, e.isCheckAccept = false) := by
  have hrt := resolveTrust_trace app val st
  have key :
      ((handleNewValidation app val source st).shouldRelay = true ↔
        ∃ seq mk, val.ledgerSequence = some seq
          ∧ (resolveTrust app val st).masterKey = some mk
          ∧ (app.add (app.calcNodeID mk) (resolveTrust app val st).val
              (resolveTrust app val st).state).1 = ValStatus.current
          ∧ (resolveTrust app val st).val.isTrusted = true)
      ∧ ((∃ e ∈ (handleNewValidation app val source st).trace, e.isCheckAccept = true) ↔
          (handleNewValidation app val source st).shouldRelay = true) := by
    cases hseq : val.ledgerSequence with
    | none =>
      rw [handle_missing app val source st hseq]
      refine ⟨by simp, ?_⟩
      simp only [Bool.false_eq_true, iff_false, not_exists, not_and, List.mem_append]
      intro e he
      rcases he with he | he
      · simp [(hrt e he).2]
      · split at he <;> simp at he
        subst he; simp [Event.isCheckAccept]
    | some seq =>
      cases hm : (resolveTrust app val st).masterKey with
      | none =>
        rw [handle_unlisted app val source st seq hseq hm]
        refine ⟨by simp, ?_⟩
        simp only [Bool.false_eq_true, iff_false, not_exists, not_and, List.mem_append]
        intro e he
        rcases he with he | he
        · simp [(hrt e he).2]
        · split at he <;> simp at he
          subst he; simp [Event.isCheckAccept]
      | some mk =>
        rw [handle_added app val source st seq mk hseq hm]
        have hcalls := (addTrace_calls app val source st seq mk).1
        rw [List.filter_eq_nil_iff] at hcalls
        by_cases hc : (resolveTrust app val st).val.isTrusted = true
            ∧ (app.add (app.calcNodeID mk) (resolveTrust app val st).val
                (resolveTrust app val st).state).1 = ValStatus.current
        · rw [if_pos hc]
          refine ⟨?_, ?_⟩
          · simp only [true_iff]
            exact ⟨seq, mk, rfl, rfl, hc.2, hc.1⟩
          · simp only [iff_true]
            exact ⟨Event.checkAccept val.ledgerHash seq, by simp, rfl⟩
        · rw [if_neg hc]
          refine ⟨?_, ?_⟩
          · simp only [Bool.false_eq_true, false_iff, not_exists, not_and]
            intro seq2 mk2 _ hmk hcur htr
            have : mk = mk2 := Option.some.inj hmk
            subst this
            exact hc ⟨htr, hcur⟩
          · simp only [Bool.false_eq_true, iff_false, not_exists, not_and]
            intro e he
            exact hcalls e he
  refine ⟨key.1, key.2, ?_⟩
  intro mk htk hbad
  have hres := (resolveTrust_trusted app val st mk htk).1
  have hfalse : (handleNewValidation app val source st).shouldRelay = false := by
    cases hsr : (handleNewValidation app val source st).shouldRelay with
    | false => rfl
    | true =>
      obtain ⟨_, mk2, _, hmk, hcur, _⟩ := key.1.mp hsr
      rw [hres] at hmk
      have : mk = mk2 := Option.some.inj hmk
      subst this
      rw [hbad] at hcur
      exact absurd hcur (by decide)
  refine ⟨hfalse, ?_⟩
  intro e he
  cases hce : e.isCheckAccept with
  | false => rfl
  | true =>
    have := key.2.mp ⟨e, he, hce⟩
    rw [hfalse] at this
    exact absurd this (by decide)

/-- Witness for C7: the trusted signer of `exampleVal` at a store that has
already admitted sequence 6 gets `badSeq`, hence false. -/
theorem handleNewValidation_relay_iff_witness :
    (handleNewValidation exampleApp exampleVal "peer" 6).shouldRelay = false :=
  ((handleNewValidation_relay_iff exampleApp exampleVal "peer" 6).2.2 100 rfl rfl).1

/-- C8: for a validation with the ledger-sequence field whose signing key has
a trusted master key, if the store's `add` returns `ValStatus::current`, then
`handleNewValidation` returns true and calls `checkAccept` exactly once, with
the validation's ledger hash and ledger sequence. -/
theorem handleNewValidation_trusted_current {σ : Type} (app : Application σ)
    (val : STValidation) (source : String) (st : σ) (seq : Nat) (mk : PublicKey)
    (hseq : val.ledgerSequence = some seq)
    (htk : (app.getTrustedKey val.signerPublic st).1 = some mk)
    (hcur : (app.add (app.calcNodeID mk) val.setTrusted
        (app.getTrustedKey val.signerPublic st).2).1 = ValStatus.current) :
    (handleNewValidation app val source st).shouldRelay = true
    ∧ (handleNewValidation app val source st).trace.filter Event.isCheckAccept
        = [Event.checkAccept val.ledgerHash seq] := by
  obtain ⟨hm, hv, hs⟩ := resolveTrust_trusted app val st mk htk
  have hc : (resolveTrust app val st).val.isTrusted = true
      ∧ (app.add (app.calcNodeID mk) (resolveTrust app val st).val
          (resolveTrust app val st).state).1 = ValStatus.current := by
    rw [hv, hs]
    exact ⟨rfl, hcur⟩
  rw [handle_added app val source st seq mk hseq hm, if_pos hc]
  refine ⟨rfl, ?_⟩
  simp only [List.filter_append, (addTrace_calls app val source st seq mk).1]
  rfl

/-- Witness for C8: the store last admitted sequence 5, so sequence 6 is
`current`. -/
theorem handleNewValidation_trusted_current_witness :
    (handleNewValidation exampleApp exampleVal "peer" 5).shouldRelay = true
    ∧ (handleNewValidation exampleApp exampleVal "peer" 5).trace.filter Event.isCheckAccept
        = [Event.checkAccept 77 6] :=
  handleNewValidation_trusted_current exampleApp exampleVal "peer" 5 6 100 rfl rfl rfl

/-- C9: a validation without the ledger-sequence field gets false, and
neither the store's `add` nor `checkAccept` is called, whatever the trust
status of its signing key. -/
theorem handleNewValidation_missing_seq {σ : Type} (app : Application σ)
    (val : STValidation) (source : String) (st : σ)
    (hseq : val.ledgerSequence = none) :
    (handleNewValidation app val source st).shouldRelay = false
    ∧ ∀ e ∈ (handleNewValidation app val source st).trace,
        e.isAdd = false ∧ e.isCheckAccept = false := by
  have hrt := resolveTrust_trace app val st
  rw [handle_missing app val source st hseq]
  refine ⟨rfl, ?_⟩
  intro e he
  simp only [List.mem_append] at he
  rcases he with he | he
  · exact hrt e he
  · split at he <;> simp at he
    subst he; exact ⟨rfl, rfl⟩

/-- Witness for C9: a validation of a trusted signer without the field. -/
theorem handleNewValidation_missing_seq_witness :
    (handleNewValidation exampleApp exampleValNoSeq "peer" 5).shouldRelay = false
    ∧ ∀ e ∈ (handleNewValidation exampleApp exampleValNoSeq "peer" 5).trace,
        e.isAdd = false ∧ e.isCheckAccept = false :=
  handleNewValidation_missing_seq exampleApp exampleValNoSeq "peer" 5 rfl

/-- C10: when the signing key has neither a trusted nor a listed master key,
`handleNewValidation` returns false and calls neither `checkAccept` nor the
store's `add`, whatever the trusted flag of the validation on entry. -/
theorem handleNewValidation_unlisted {σ : Type} (app : Application σ)
    (val : STValidation) (source : String) (st : σ)
    (htk : (app.getTrustedKey val.signerPublic st).1 = none)
    (hlk : (app.getListedKey val.signerPublic
        (app.getTrustedKey val.signerPublic st).2).1 = none) :
    (handleNewValidation app val source st).shouldRelay = false
    ∧ ∀ e ∈ (handleNewValidation app val source st).trace,
        e.isAdd = false ∧ e.isCheckAccept = false := by
  have hrt := resolveTrust_trace app val st
  have hm : (resolveTrust app val st).masterKey = none := by
    rw [(resolveTrust_untrusted app val st htk).1, hlk]
  cases hseq : val.ledgerSequence with
  | none =>
    rw [handle_missing app val source st hseq]
    refine ⟨rfl, ?_⟩
    intro e he
    simp only [List.mem_append] at he
    rcases he with he | he
    · exact hrt e he
    · split at he <;> simp at he
      subst he; exact ⟨rfl, rfl⟩
  | some seq =>
    rw [handle_unlisted app val source st seq hseq hm]
    refine ⟨rfl, ?_⟩
    intro e he
    simp only [List.mem_append] at he
    rcases he with he | he
    · exact hrt e he
    · split at he <;> simp at he
      subst he; exact ⟨rfl, rfl⟩

/-- Witness for C10: key 3 is in neither table. -/
theorem handleNewValidation_unlisted_witness :
    (handleNewValidation exampleApp exampleValUnknown "peer" 5).shouldRelay = false
    ∧ ∀ e ∈ (handleNewValidation exampleApp exampleValUnknown "peer" 5).trace,
        e.isAdd = false ∧ e.isCheckAccept = false :=
  handleNewValidation_unlisted exampleApp exampleValUnknown "peer" 5 rfl rfl

/-! ## Further facts about the branches of `handleNewValidation` -/

/-- The flag that trust resolution leaves: set on entry, or a trusted master
key was found. -/
theorem resolveTrust_flag {σ : Type} (app : Application σ) (val : STValidation) (st : σ) :
    (resolveTrust app val st).val.trusted
      = (val.trusted || (app.getTrustedKey val.signerPublic st).1.isSome) := by
  cases htk : (app.getTrustedKey val.signerPublic st).1 with
  | none =>
    rw [(resolveTrust_untrusted app val st htk).2.1]
    simp
  | some mk =>
    rw [(resolveTrust_trusted app val st mk htk).2.1]
    simp [STValidation.setTrusted]

/-- After trust resolution, `handleNewValidation` does not touch the
validation again. -/
theorem handle_val {σ : Type} (app : Application σ) (val : STValidation)
    (source : String) (st : σ) :
    (handleNewValidation app val source st).val = (resolveTrust app val st).val := by
  cases hseq : val.ledgerSequence with
  | none => rw [handle_missing app val source st hseq]
  | some seq =>
    cases hm : (resolveTrust app val st).masterKey with
    | none => rw [handle_unlisted app val source st seq hseq hm]
    | some mk =>
      rw [handle_added app val source st seq mk hseq hm]
      split <;> rfl

/-- With the field present and a master key seated, the store's `add` is
called exactly once, under the node identity of that key. -/
theorem handle_added_adds {σ : Type} (app : Application σ) (val : STValidation)
    (source : String) (st : σ) (seq : Nat) (mk : PublicKey)
    (h : val.ledgerSequence = some seq)
    (hm : (resolveTrust app val st).masterKey = some mk) :
    (handleNewValidation app val source st).trace.filter Event.isAdd
      = [Event.add (app.calcNodeID mk) (resolveTrust app val st).val] := by
  rw [handle_added app val source st seq mk h hm]
  have hc := (addTrace_calls app val source st seq mk).2
  split
  · simp only [List.filter_append, hc]
    rfl
  · exact hc

/-- Without the field, or without a seated master key, `add` is not called. -/
theorem handle_not_added {σ : Type} (app : Application σ) (val : STValidation)
    (source : String) (st : σ)
    (h : val.ledgerSequence = none ∨ (resolveTrust app val st).masterKey = none) :
    (handleNewValidation app val source st).trace.filter Event.isAdd = [] := by
  have hrt := resolveTrust_trace app val st
  rw [List.filter_eq_nil_iff]
  cases hseq : val.ledgerSequence with
  | none =>
    rw [handle_missing app val source st hseq]
    intro e he
    simp only [List.mem_append] at he
    rcases he with he | he
    · simp [(hrt e he).1]
    · split at he <;> simp at he
      subst he; simp [Event.isAdd]
  | some seq =>
    have hm : (resolveTrust app val st).masterKey = none := by
      rcases h with h | h
      · rw [hseq] at h; exact absurd h (by simp)
      · exact h
    rw [handle_unlisted app val source st seq hseq hm]
    intro e he
    simp only [List.mem_append] at he
    rcases he with he | he
    · simp [(hrt e he).1]
    · split at he <;> simp at he
      subst he; simp [Event.isAdd]

/-- With a trusted master key, trust resolution does not call `getListedKey`. -/
theorem resolveTrust_no_listed {σ : Type} (app : Application σ) (val : STValidation)
    (st : σ) (mk : PublicKey) (h : (app.getTrustedKey val.signerPublic st).1 = some mk) :
    ∀ e ∈ (resolveTrust app val st).trace, e.isGetListedKey = false := by
  unfold resolveTrust
  simp only [h, Option.isNone_some, Option.isSome_some, Bool.and_true, Bool.false_eq_true,
    if_false]
  split <;> simp [Event.isGetListedKey]

/-- After trust resolution, `handleNewValidation` does not call `getListedKey`. -/
theorem handle_no_listed {σ : Type} (app : Application σ) (val : STValidation)
    (source : String) (st : σ)
    (hres : ∀ e ∈ (resolveTrust app val st).trace, e.isGetListedKey = false) :
    ∀ e ∈ (handleNewValidation app val source st).trace, e.isGetListedKey = false := by
  cases hseq : val.ledgerSequence with
  | none =>
    rw [handle_missing app val source st hseq]
    intro e he
    simp only [List.mem_append] at he
    rcases he with he | he
    · exact hres e he
    · split at he <;> simp at he
      subst he; rfl
  | some seq =>
    cases hm : (resolveTrust app val st).masterKey with
    | none =>
      rw [handle_unlisted app val source st seq hseq hm]
      intro e he
      simp only [List.mem_append] at he
      rcases he with he | he
      · exact hres e he
      · split at he <;> simp at he
        subst he; rfl
    | some mk =>
      rw [handle_added app val source st seq mk hseq hm]
      have hadd : ∀ e ∈ addTrace app val source st seq mk, e.isGetListedKey = false := by
        intro e he
        unfold addTrace at he
        simp only [List.mem_append, List.mem_singleton] at he
        rcases he with ((he | he) | he) | he
        · exact hres e he
        · subst he; rfl
        · split at he <;> simp at he
          subst he; rfl
        · split at he <;> simp at he
          subst he; rfl
      intro e he
      split at he
      · simp only [List.mem_append, List.mem_singleton] at he
        rcases he with he | he
        · exact hadd e he
        · subst he; rfl
      · exact hadd e he

/-! ## Claims about trust, the store and relay -/

/-- C11: for a validation whose trusted flag is unset on entry, that has the
ledger-sequence field, and whose signing key has a listed master key but no
trusted one, the store's `add` is called exactly once, under the node
identity of the listed key, and whatever `add` returns the result is false
and `checkAccept` is not called. -/
theorem handleNewValidation_listed_only {σ : Type} (app : Application σ)
    (val : STValidation) (source : String) (st : σ) (seq : Nat) (lk : PublicKey)
    (hflag : val.trusted = false)
    (hseq : val.ledgerSequence = some seq)
    (htk : (app.getTrustedKey val.signerPublic st).1 = none)
    (hlk : (app.getListedKey val.signerPublic
        (app.getTrustedKey val.signerPublic st).2).1 = some lk) :
    (handleNewValidation app val source st).trace.filter Event.isAdd
        = [Event.add (app.calcNodeID lk) val]
    ∧ (handleNewValidation app val source st).shouldRelay = false
    ∧ ∀ e ∈ (handleNewValidation app val source st).trace, e.isCheckAccept = false := by
  obtain ⟨hm, hv, _⟩ := resolveTrust_untrusted app val st htk
  rw [hlk] at hm
  have hadds := handle_added_adds app val source st seq lk hseq hm
  rw [hv] at hadds
  refine ⟨hadds, ?_⟩
  have hnot : ¬ ((resolveTrust app val st).val.isTrusted = true
      ∧ (app.add (app.calcNodeID lk) (resolveTrust app val st).val
          (resolveTrust app val st).state).1 = ValStatus.current) := by
    rintro ⟨ht, _⟩
    rw [hv] at ht
    unfold STValidation.isTrusted at ht
    rw [hflag] at ht
    exact absurd ht (by decide)
  rw [handle_added app val source st seq lk hseq hm, if_neg hnot]
  refine ⟨rfl, ?_⟩
  have hc := (addTrace_calls app val source st seq lk).1
  rw [List.filter_eq_nil_iff] at hc
  intro e he
  cases hce : e.isCheckAccept with
  | false => rfl
  | true => exact absurd hce (hc e he)

/-- Witness for C11: the listed key 2 at a store that would admit sequence 6
as `current`. -/
theorem handleNewValidation_listed_only_witness :
    (handleNewValidation exampleApp exampleValListed "peer" 5).trace.filter Event.isAdd
        = [Event.add (exampleApp.calcNodeID 200) exampleValListed]
    ∧ (handleNewValidation exampleApp exampleValListed "peer" 5).shouldRelay = false
    ∧ ∀ e ∈ (handleNewValidation exampleApp exampleValListed "peer" 5).trace,
        e.isCheckAccept = false :=
  handleNewValidation_listed_only exampleApp exampleValListed "peer" 5 6 200 rfl rfl rfl rfl

/-- C12: on every path of `handleNewValidation` the trusted flag of the
validation after the call is the flag on entry or-ed with "the signing key has
a trusted master key": a flag set on entry stays set, and a listed key alone
does not set it. -/
theorem handleNewValidation_trust_monotone {σ : Type} (app : Application σ)
    (val : STValidation) (source : String) (st : σ) :
    (handleNewValidation app val source st).val.trusted
      = (val.trusted || (app.getTrustedKey val.signerPublic st).1.isSome) := by
  rw [handle_val, resolveTrust_flag]

/-- C17: the store's `add` is called exactly once when the ledger-sequence
field is present and a master key is resolved, and not at all otherwise; the
node identity passed is `calcNodeID` of the trusted master key when there is
one, in which case `getListedKey` is not called, and `calcNodeID` of the
listed master key when there is no trusted one. -/
theorem handleNewValidation_add_calls {σ : Type} (app : Application σ)
    (val : STValidation) (source : String) (st : σ) :
    (∀ seq tk, val.ledgerSequence = some seq →
        (app.getTrustedKey val.signerPublic st).1 = some tk →
        (handleNewValidation app val source st).trace.filter Event.isAdd
          = [Event.add (app.calcNodeID tk) val.setTrusted])
    ∧ (∀ tk, (app.getTrustedKey val.signerPublic st).1 = some tk →
        ∀ e ∈ (handleNewValidation app val source st).trace, e.isGetListedKey = false)
    ∧ (∀ seq lk, val.ledgerSequence = some seq →
        (app.getTrustedKey val.signerPublic st).1 = none →
        (app.getListedKey val.signerPublic
          (app.getTrustedKey val.signerPublic st).2).1 = some lk →
        (handleNewValidation app val source st).trace.filter Event.isAdd
          = [Event.add (app.calcNodeID lk) val])
    ∧ (val.ledgerSequence = none →
        (handleNewValidation app val source st).trace.filter Event.isAdd = [])
    ∧ ((app.getTrustedKey val.signerPublic st).1 = none →
        (app.getListedKey val.signerPublic
          (app.getTrustedKey val.signerPublic st).2).1 = none →
        (handleNewValidation app val source st).trace.filter Event.isAdd = []) := by
  refine ⟨?_, ?_, ?_, ?_, ?_⟩
  · intro seq tk hseq htk
    obtain ⟨hm, hv, _⟩ := resolveTrust_trusted app val st tk htk
    have := handle_added_adds app val source st seq tk hseq hm
    rw [hv] at this
    exact this
  · intro tk htk
    exact handle_no_listed app val source st (resolveTrust_no_listed app val st tk htk)
  · intro seq lk hseq htk hlk
    obtain ⟨hm, hv, _⟩ := resolveTrust_untrusted app val st htk
    rw [hlk] at hm
    have := handle_added_adds app val source st seq lk hseq hm
    rw [hv] at this
    exact this
  · intro hseq
    exact handle_not_added app val source st (Or.inl hseq)
  · intro htk hlk
    have hm := (resolveTrust_untrusted app val st htk).1
    rw [hlk] at hm
    exact handle_not_added app val source st (Or.inr hm)

/-- Witness for C17: the trusted key 1 is added under the identity of master
key 100 with no listed lookup, the listed key 2 under that of master key 200,
and the unknown key 3 is not added. -/
theorem handleNewValidation_add_calls_witness :
    (handleNewValidation exampleApp exampleVal "peer" 5).trace.filter Event.isAdd
        = [Event.add (exampleApp.calcNodeID 100) exampleVal.setTrusted]
    ∧ (∀ e ∈ (handleNewValidation exampleApp exampleVal "peer" 5).trace,
        e.isGetListedKey = false)
    ∧ (handleNewValidation exampleApp exampleValListed "peer" 5).trace.filter Event.isAdd
        = [Event.add (exampleApp.calcNodeID 200) exampleValListed]
    ∧ (handleNewValidation exampleApp exampleValNoSeq "peer" 5).trace.filter Event.isAdd = []
    ∧ (handleNewValidation exampleApp exampleValUnknown "peer" 5).trace.filter Event.isAdd
        = [] :=
  ⟨(handleNewValidation_add_calls exampleApp exampleVal "peer" 5).1 6 100 rfl rfl,
   (handleNewValidation_add_calls exampleApp exampleVal "peer" 5).2.1 100 rfl,
   (handleNewValidation_add_calls exampleApp exampleValListed "peer" 5).2.2.1 6 200 rfl rfl rfl,
   (handleNewValidation_add_calls exampleApp exampleValNoSeq "peer" 5).2.2.2.1 rfl,
   (handleNewValidation_add_calls exampleApp exampleValUnknown "peer" 5).2.2.2.2 rfl rfl⟩

/-- C20: the relay decision follows the trusted flag of the validation, not
the trusted-key lookup: for a validation with the ledger-sequence field whose
trusted flag is set on entry and whose signing key has a listed master key
but no trusted one, if the store's `add` returns `ValStatus::current` then
`handleNewValidation` returns true and calls `checkAccept` with the
validation's hash and sequence. -/
theorem handleNewValidation_flagged_listed {σ : Type} (app : Application σ)
    (val : STValidation) (source : String) (st : σ) (seq : Nat) (lk : PublicKey)
    (hflag : val.trusted = true)
    (hseq : val.ledgerSequence = some seq)
    (htk : (app.getTrustedKey val.signerPublic st).1 = none)
    (hlk : (app.getListedKey val.signerPublic
        (app.getTrustedKey val.signerPublic st).2).1 = some lk)
    (hcur : (app.add (app.calcNodeID lk) val
        (app.getListedKey val.signerPublic
          (app.getTrustedKey val.signerPublic st).2).2).1 = ValStatus.current) :
    (handleNewValidation app val source st).shouldRelay = true
    ∧ (handleNewValidation app val source st).trace.filter Event.isCheckAccept
        = [Event.checkAccept val.ledgerHash seq] := by
  obtain ⟨hm, hv, hs⟩ := resolveTrust_untrusted app val st htk
  rw [hlk] at hm
  have hc : (resolveTrust app val st).val.isTrusted = true
      ∧ (app.add (app.calcNodeID lk) (resolveTrust app val st).val
          (resolveTrust app val st).state).1 = ValStatus.current := by
    rw [hv, hs]
    exact ⟨hflag, hcur⟩
  rw [handle_added app val source st seq lk hseq hm, if_pos hc]
  refine ⟨rfl, ?_⟩
  simp only [List.filter_append, (addTrace_calls app val source st seq lk).1]
  rfl

/-- Witness for C20: the listed key 2 with the flag set on entry, at a store
that admits sequence 6 as `current`. -/
theorem handleNewValidation_flagged_listed_witness :
    (handleNewValidation exampleApp exampleValListedFlagged "peer" 5).shouldRelay = true
    ∧ (handleNewValidation exampleApp exampleValListedFlagged "peer" 5).trace.filter
          Event.isCheckAccept
        = [Event.checkAccept 77 6] :=
  handleNewValidation_flagged_listed exampleApp exampleValListedFlagged "peer" 5 6 200
    rfl rfl rfl rfl rfl

/-! ## The sentinel, the genesis view and the ancestor case -/

/-- C13, as stated, fails for the genesis view: its own id is `ID{0}`, so the
sentinel returned for sequence 1, above its window, equals an id of the
window. -/
theorem operatorIndex_sentinel_counterexample :
    RCLValidatedLedger.MakeGenesis.seq < 1
    ∧ RCLValidatedLedger.MakeGenesis.idAt 1 = some ID_ZERO
    ∧ RCLValidatedLedger.MakeGenesis.idAt 1 = some RCLValidatedLedger.MakeGenesis.id := by
  decide

/-- C13 (amended): for a sequence `s` outside `[minSeq(), seq()]`,
`operator[](s)` returns the sentinel `ID{0}`; the returned value equals the
view's own id exactly when that id is `ID{0}`, and equals an element of
`ancestors_` exactly when that element is `ID{0}`. -/
theorem operatorIndex_sentinel (a : RCLValidatedLedger) (s : Nat)
    (h : s < a.minSeq ∨ a.seq < s) :
    a.idAt s = some ID_ZERO
    ∧ (a.idAt s = some a.id ↔ a.id = ID_ZERO)
    ∧ ∀ x ∈ a.ancestors_, (a.idAt s = some x ↔ x = ID_ZERO) := by
  have h0 := RCLValidatedLedger.idAt_outside a s h
  refine ⟨h0, ?_, ?_⟩
  · rw [h0]
    constructor
    · intro he; exact (Option.some.inj he).symm
    · intro he; rw [he]
  · intro x _
    rw [h0]
    constructor
    · intro he; exact (Option.some.inj he).symm
    · intro he; rw [he]

/-- Witness for C13 (amended): sequence 5 is above the window of `viewA`, none
of whose ids is `ID{0}`. -/
theorem operatorIndex_sentinel_witness :
    viewA.idAt 5 = some ID_ZERO ∧ viewA.idAt 5 ≠ some viewA.id
    ∧ ∀ x ∈ viewA.ancestors_, viewA.idAt 5 ≠ some x :=
  ⟨(operatorIndex_sentinel viewA 5 (Or.inr (by decide))).1,
   fun he => absurd ((operatorIndex_sentinel viewA 5 (Or.inr (by decide))).2.1.mp he)
     (by decide),
   fun x hx he =>
     absurd ((operatorIndex_sentinel viewA 5 (Or.inr (by decide))).2.2 x hx |>.mp he)
       (by
         have hx2 : x ∈ [1, 2, 3] := hx
         simp only [List.mem_cons, List.mem_singleton, List.not_mem_nil, or_false] at hx2
         rcases hx2 with rfl | rfl | rfl <;> decide)⟩

/-- When the smaller of the two sequences is 0, the walk does not start and
`mismatch` returns 1. -/
theorem mismatch_upper_zero (a b : RCLValidatedLedger) (h : mismatchUpper a b = 0) :
    mismatch a b = some 1 := by
  have hw : mismatchWalk a b = some (0, 0) := by
    unfold mismatchWalk
    rw [h]
    apply walk_stop
    rw [walkCond_eq]
    simp
  rw [mismatch_of_walk a b 0 0 hw]
  split <;> rfl

/-- C19: for the genesis view `g` and every view `b`, `mismatch(g, b)` and
`mismatch(b, g)` are 1, and `g[s]` is `ID{0}` for every sequence `s`. -/
theorem mismatch_genesis (b : RCLValidatedLedger) :
    mismatch RCLValidatedLedger.MakeGenesis b = some 1
    ∧ mismatch b RCLValidatedLedger.MakeGenesis = some 1
    ∧ ∀ s, RCLValidatedLedger.MakeGenesis.idAt s = some ID_ZERO := by
  have hu : mismatchUpper RCLValidatedLedger.MakeGenesis b = 0 := by
    unfold mismatchUpper
    exact Nat.zero_min _
  refine ⟨mismatch_upper_zero _ b hu, ?_, ?_⟩
  · apply mismatch_upper_zero
    rw [mismatchUpper_comm]; exact hu
  · intro s
    by_cases hs : s = 0
    · subst hs; rfl
    · exact RCLValidatedLedger.idAt_outside _ s (Or.inr (Nat.pos_of_ne_zero hs))

/-- The result of `mismatch` does not depend on the order of its arguments. -/
theorem mismatch_swap (a b : RCLValidatedLedger) : mismatch a b = mismatch b a := by
  unfold mismatch mismatchWalk
  rw [mismatchLower_comm a b, mismatchUpper_comm a b, walk_comm a b]

/-- Ancestor case: when `b.seq()` lies in the window of `a` and `a` holds the
id of `b` there, the walk stops at once and the result is `b.seq() + 1` as
32-bit arithmetic computes it. -/
theorem mismatch_ancestor_mod (a b : RCLValidatedLedger)
    (hlo : a.minSeq ≤ b.seq) (hhi : b.seq ≤ a.seq) (heq : a.idAt b.seq = some b.id) :
    mismatch a b = some (seqAdd b.seq 1) := by
  have hu : mismatchUpper a b = b.seq := by
    unfold mismatchUpper; exact Nat.min_eq_right hhi
  have hw : mismatchWalk a b = some (b.seq, 0) := by
    unfold mismatchWalk
    rw [hu]
    apply walk_stop
    rw [walkCond_eq]
    apply congrArg
    apply decide_eq_false
    rintro ⟨_, hne, _⟩
    have h1 := idAt_eq_idOf a b.seq
    have h2 := idAt_eq_idOf b b.seq
    rw [heq] at h1
    rw [RCLValidatedLedger.idAt_seq b] at h2
    exact hne ((Option.some.inj h1).symm.trans (Option.some.inj h2))
  rw [mismatch_of_walk a b b.seq 0 hw]
  have hnot : ¬ b.seq < mismatchLower a b := by
    have := RCLValidatedLedger.minSeq_le_seq b
    unfold mismatchLower
    omega
  rw [if_neg hnot]

/-- C18, as stated, fails at the greatest 32-bit sequence: `viewMaxB` lies in
the window of `viewMax`, which holds its id there, and `mismatch` returns 0 in
both orders, not `seq() + 1 = 2^32`. -/
theorem mismatch_ancestor_counterexample :
    viewMax.minSeq ≤ viewMaxB.seq ∧ viewMaxB.seq ≤ viewMax.seq
    ∧ viewMax.idAt viewMaxB.seq = some viewMaxB.id
    ∧ viewMaxB.seq + 1 = 4294967296
    ∧ mismatch viewMax viewMaxB = some 0
    ∧ mismatch viewMaxB viewMax = some 0 := by
  have h := mismatch_ancestor_mod viewMax viewMaxB (by decide) (by decide) (by decide)
  have h0 : seqAdd viewMaxB.seq 1 = 0 := rfl
  rw [h0] at h
  refine ⟨by decide, by decide, by decide, rfl, h, ?_⟩
  rw [mismatch_swap]; exact h

/-- C18 (amended): when `b.seq()` lies in the window of `a` and
`a[b.seq()] == b.id()`, then `mismatch(a, b)` and `mismatch(b, a)` both return
`b.seq() + 1` if `b.seq() < 2^32 - 1`, and both return 0 if
`b.seq() = 2^32 - 1`, whatever the ancestors of `b` are. -/
theorem mismatch_ancestor (a b : RCLValidatedLedger)
    (hlo : a.minSeq ≤ b.seq) (hhi : b.seq ≤ a.seq) (heq : a.idAt b.seq = some b.id) :
    (b.seq < SEQ_MOD - 1 →
      mismatch a b = some (b.seq + 1) ∧ mismatch b a = some (b.seq + 1))
    ∧ (b.seq = SEQ_MOD - 1 → mismatch a b = some 0 ∧ mismatch b a = some 0) := by
  have h := mismatch_ancestor_mod a b hlo hhi heq
  have h2 : mismatch b a = some (seqAdd b.seq 1) := by rw [mismatch_swap]; exact h
  rw [h, h2]
  unfold seqAdd
  constructor
  · intro hlt
    rw [Nat.mod_eq_of_lt (by omega)]
    exact ⟨rfl, rfl⟩
  · intro he
    rw [he]
    exact ⟨rfl, rfl⟩

/-- Witness for C18 (amended): `viewAnc`, at sequence 2, has the id `viewA`
holds for sequence 2 and ancestors of its own. -/
theorem mismatch_ancestor_witness :
    mismatch viewA viewAnc = some 3 ∧ mismatch viewAnc viewA = some 3 :=
  (mismatch_ancestor viewA viewAnc (by decide) (by decide) (by decide)).1 (by decide)

/-! ## The walk in full: termination and the reference definition -/

/-- The walk from a cursor `curr` below `2^32`, given more than `curr`
evaluations of its condition, ends at a cursor `c` after `n` decrements with
`c + n = curr`; the loop condition is false at `c`, and at every sequence it
stepped over the views differ and `lower` is not passed. -/
theorem walk_spec (a b : RCLValidatedLedger) (lower : Nat) :
    ∀ (curr fuel : Nat), curr < fuel → curr < SEQ_MOD →
      ∃ c n, walk a b lower fuel curr = some (c, n) ∧ c + n = curr
        ∧ walkCond a b lower c = some false
        ∧ ∀ s, c < s → s ≤ curr → a.idOf s ≠ b.idOf s ∧ lower ≤ s := by
  intro curr
  induction curr with
  | zero =>
    intro fuel hf _
    obtain ⟨g, rfl⟩ : ∃ g, fuel = g + 1 := ⟨fuel - 1, by omega⟩
    have hw : walkCond a b lower 0 = some false := by rw [walkCond_eq]; simp
    exact ⟨0, 0, walk_stop a b lower g 0 hw, rfl, hw, fun s h1 h2 => by omega⟩
  | succ c0 ih =>
    intro fuel hf hlt
    obtain ⟨g, rfl⟩ : ∃ g, fuel = g + 1 := ⟨fuel - 1, by omega⟩
    by_cases hc : (c0 + 1 ≠ 0 ∧ a.idOf (c0 + 1) ≠ b.idOf (c0 + 1) ∧ lower ≤ c0 + 1)
    · have hw : walkCond a b lower (c0 + 1) = some true := by
        rw [walkCond_eq, decide_eq_true hc]
      have hdec : seqSub (c0 + 1) 1 = c0 := by
        rw [seqSub_one (c0 + 1) (by omega) hlt]; rfl
      obtain ⟨c2, n, hwalk, hsum, hstop, hall⟩ := ih g (by omega) (by omega)
      refine ⟨c2, n + 1, ?_, by omega, hstop, ?_⟩
      · rw [walk_step a b lower g (c0 + 1) hw, hdec, hwalk]
        rfl
      · intro s h1 h2
        by_cases hs : s = c0 + 1
        · subst hs; exact ⟨hc.2.1, hc.2.2⟩
        · exact hall s h1 (by omega)
    · have hw : walkCond a b lower (c0 + 1) = some false := by
        rw [walkCond_eq, decide_eq_false hc]
      exact ⟨c0 + 1, 0, walk_stop a b lower g (c0 + 1) hw, rfl, hw,
        fun s h1 h2 => by omega⟩

/-- What a false loop condition at `c` says. -/
theorem walkCond_false (a b : RCLValidatedLedger) (lower c : Nat)
    (h : walkCond a b lower c = some false) :
    c = 0 ∨ a.idAt c = b.idAt c ∨ c < lower := by
  rw [walkCond_eq] at h
  have hd := of_decide_eq_false (Option.some.inj h)
  by_cases h0 : c = 0
  · exact Or.inl h0
  · by_cases he : a.idOf c = b.idOf c
    · right; left
      rw [idAt_eq_idOf, idAt_eq_idOf, he]
    · right; right
      by_contra hl
      exact hd ⟨h0, he, by omega⟩

/-- Views that differ by `idOf` differ by `idAt`, and conversely. -/
theorem idAt_ne_iff (a b : RCLValidatedLedger) (s : Nat) :
    a.idAt s ≠ b.idAt s ↔ a.idOf s ≠ b.idOf s := by
  rw [idAt_eq_idOf, idAt_eq_idOf]
  constructor
  · intro h he; exact h (congrArg some he)
  · intro h he; exact h (Option.some.inj he)

/-- C16: the walk of `mismatch` ends for every pair of views, with any number
of allowed evaluations above `upper`; the cursor is never decremented at 0
(it ends at `upper` minus the number of decrements, and each decrement is
that of a nonzero cursor), there are at most `upper - lower + 1` decrements
and none when `lower > upper`; and on exit `a[curr] == b[curr]`, or
`curr < lower`, or `curr == 0`, the second being impossible when `lower == 0`. -/
theorem mismatch_walk_terminates (a b : RCLValidatedLedger) :
    ∃ c n,
      (∀ fuel, mismatchUpper a b + 1 ≤ fuel →
        walk a b (mismatchLower a b) fuel (mismatchUpper a b) = some (c, n))
      ∧ mismatchWalk a b = some (c, n)
      ∧ c + n = mismatchUpper a b
      ∧ (∀ s, c < s → s ≤ mismatchUpper a b → s ≠ 0 ∧ seqSub s 1 + 1 = s)
      ∧ (mismatchLower a b ≤ mismatchUpper a b →
          n ≤ mismatchUpper a b - mismatchLower a b + 1)
      ∧ (mismatchUpper a b < mismatchLower a b → n = 0)
      ∧ (a.idAt c = b.idAt c ∨ c < mismatchLower a b ∨ c = 0)
      ∧ (mismatchLower a b = 0 → a.idAt c = b.idAt c ∨ c = 0) := by
  have hup := mismatchUpper_lt a b
  obtain ⟨c, n, hw, hsum, hstop, hall⟩ :=
    walk_spec a b (mismatchLower a b) (mismatchUpper a b) (mismatchUpper a b + 1)
      (by omega) hup
  have hexit := walkCond_false a b (mismatchLower a b) c hstop
  refine ⟨c, n, ?_, hw, hsum, ?_, ?_, ?_, ?_, ?_⟩
  · intro fuel hf
    exact walk_fuel_irrelevant a b (mismatchLower a b) (mismatchUpper a b + 1) fuel
      (mismatchUpper a b) (c, n) hf hw
  · intro s h1 h2
    have hs0 : s ≠ 0 := by omega
    refine ⟨hs0, ?_⟩
    rw [seqSub_one s hs0 (by omega)]
    omega
  · intro hle
    by_cases hn : n = 0
    · omega
    · have := (hall (c + 1) (by omega) (by omega)).2
      omega
  · intro hlt
    by_contra hn
    have := (hall (c + 1) (by omega) (by omega)).2
    omega
  · rcases hexit with h | h | h
    · exact Or.inr (Or.inr h)
    · exact Or.inl h
    · exact Or.inr (Or.inl h)
  · intro h0
    rcases hexit with h | h | h
    · exact Or.inr h
    · exact Or.inl h
    · omega

/-- If the views agree at `g` in `[max(lower, 1), upper]` and differ at every
sequence above `g` up to `upper`, the walk ends at `g`, and `mismatch` returns
`g + 1` as long as that fits 32 bits. -/
theorem mismatch_at_greatest (a b : RCLValidatedLedger) (g : Nat)
    (hup : mismatchUpper a b < SEQ_MOD - 1)
    (hlo : max (mismatchLower a b) 1 ≤ g) (hhi : g ≤ mismatchUpper a b)
    (hag : a.idAt g = b.idAt g)
    (hdiff : ∀ s, g < s → s ≤ mismatchUpper a b → a.idAt s ≠ b.idAt s) :
    mismatch a b = some (g + 1) := by
  have hk : walkCond a b (mismatchLower a b) g = some false := by
    rw [walkCond_eq]
    apply congrArg
    apply decide_eq_false
    rintro ⟨_, hne, _⟩
    exact (idAt_ne_iff a b g).mpr hne hag
  obtain ⟨d, hd⟩ : ∃ d, mismatchUpper a b = g + d := ⟨mismatchUpper a b - g, by omega⟩
  have hw : mismatchWalk a b = some (g, d) := by
    unfold mismatchWalk
    rw [hd]
    apply walk_down a b (mismatchLower a b) g hk d (g + d + 1) (by omega) (by omega)
    intro s h1 h2
    exact ⟨(idAt_ne_iff a b s).mp (hdiff s h1 (by omega)), by omega⟩
  rw [mismatch_of_walk a b g d hw]
  have hnot : ¬ g < mismatchLower a b := by omega
  rw [if_neg hnot]
  unfold seqAdd
  rw [Nat.mod_eq_of_lt (by omega)]

/-- If the views differ at every sequence of `[max(lower, 1), upper]`,
`mismatch` returns 1. -/
theorem mismatch_no_agreement (a b : RCLValidatedLedger)
    (hdiff : ∀ s, max (mismatchLower a b) 1 ≤ s → s ≤ mismatchUpper a b →
      a.idAt s ≠ b.idAt s) :
    mismatch a b = some 1 := by
  have hup := mismatchUpper_lt a b
  obtain ⟨c, n, hw, hsum, hstop, _⟩ :=
    walk_spec a b (mismatchLower a b) (mismatchUpper a b) (mismatchUpper a b + 1)
      (by omega) hup
  have hw2 : mismatchWalk a b = some (c, n) := hw
  rw [mismatch_of_walk a b c n hw2]
  by_cases hc : c < mismatchLower a b
  · rw [if_pos hc]
  · rw [if_neg hc]
    rcases walkCond_false a b (mismatchLower a b) c hstop with h | h | h
    · rw [h]; rfl
    · by_cases h0 : c = 0
      · rw [h0]; rfl
      · exact absurd h (hdiff c (by omega) (by omega))
    · exact absurd h hc

/-- The result of `mismatch` lies in `[1, upper + 1]` when `upper + 1` fits
32 bits, and the views differ at every sequence of the common window from the
result upwards. -/
theorem mismatch_bounds (a b : RCLValidatedLedger)
    (hup : mismatchUpper a b < SEQ_MOD - 1) :
    ∃ m, mismatch a b = some m ∧ 1 ≤ m ∧ m ≤ mismatchUpper a b + 1
      ∧ ∀ s, max (mismatchLower a b) m ≤ s → s ≤ mismatchUpper a b →
          a.idAt s ≠ b.idAt s := by
  obtain ⟨c, n, hw, hsum, hstop, hall⟩ :=
    walk_spec a b (mismatchLower a b) (mismatchUpper a b) (mismatchUpper a b + 1)
      (by omega) (by omega)
  have hw2 : mismatchWalk a b = some (c, n) := hw
  rw [mismatch_of_walk a b c n hw2]
  by_cases hc : c < mismatchLower a b
  · rw [if_pos hc]
    refine ⟨1, rfl, le_refl 1, by omega, ?_⟩
    intro s h1 h2
    exact (idAt_ne_iff a b s).mpr (hall s (by omega) h2).1
  · rw [if_neg hc]
    have hadd : seqAdd c 1 = c + 1 := by
      unfold seqAdd
      rw [Nat.mod_eq_of_lt (by omega)]
    rw [hadd]
    refine ⟨c + 1, rfl, by omega, by omega, ?_⟩
    intro s h1 h2
    exact (idAt_ne_iff a b s).mpr (hall s (by omega) h2).1

/-- The loop computes the reference definition when `upper + 1` fits 32 bits. -/
theorem mismatch_eq_mismatchSpec (a b : RCLValidatedLedger)
    (hup : mismatchUpper a b < SEQ_MOD - 1) :
    mismatch a b = some (mismatchSpec a b) := by
  unfold mismatchSpec
  by_cases hex : ∃ s, s ≤ mismatchUpper a b ∧ agreesAt a b s
  · rw [if_pos hex]
    obtain ⟨s0, hs0, hP0⟩ := hex
    have hP : agreesAt a b (Nat.findGreatest (agreesAt a b) (mismatchUpper a b)) :=
      Nat.findGreatest_spec hs0 hP0
    have hle := Nat.findGreatest_le (P := agreesAt a b) (mismatchUpper a b)
    apply mismatch_at_greatest a b _ hup hP.1 hle hP.2
    intro s h1 h2 heq
    have hnP := Nat.findGreatest_is_greatest h1 h2
    apply hnP
    exact ⟨by have := hP.1; omega, heq⟩
  · rw [if_neg hex]
    apply mismatch_no_agreement
    intro s h1 h2 heq
    exact hex ⟨s, h2, h1, heq⟩

/-- C15: for every pair of views with `upper < 2^32 - 1`, `mismatch(a, b)` is
the reference definition: `g + 1` for the greatest sequence `g` with
`max(lower, 1) <= g <= upper` at which the views agree, and 1 when there is
none; hence the result `m` satisfies `1 <= m <= upper + 1` and the views
differ at every `s` with `max(lower, m) <= s <= upper`. -/
theorem mismatch_refines_spec (a b : RCLValidatedLedger)
    (hup : mismatchUpper a b < SEQ_MOD - 1) :
    mismatch a b = some (mismatchSpec a b)
    ∧ (∀ g, max (mismatchLower a b) 1 ≤ g → g ≤ mismatchUpper a b →
        a.idAt g = b.idAt g →
        (∀ s, g < s → s ≤ mismatchUpper a b → a.idAt s ≠ b.idAt s) →
        mismatch a b = some (g + 1))
    ∧ ((∀ s, max (mismatchLower a b) 1 ≤ s → s ≤ mismatchUpper a b →
          a.idAt s ≠ b.idAt s) →
        mismatch a b = some 1)
    ∧ ∃ m, mismatch a b = some m ∧ 1 ≤ m ∧ m ≤ mismatchUpper a b + 1
        ∧ ∀ s, max (mismatchLower a b) m ≤ s → s ≤ mismatchUpper a b →
            a.idAt s ≠ b.idAt s :=
  ⟨mismatch_eq_mismatchSpec a b hup,
   fun g hlo hhi hag hdiff => mismatch_at_greatest a b g hup hlo hhi hag hdiff,
   fun hdiff => mismatch_no_agreement a b hdiff,
   mismatch_bounds a b hup⟩

/-- Witness for C15: `viewA` and `viewB` agree last at sequence 1, and the
reference definition evaluates to 2. -/
theorem mismatch_refines_spec_witness :
    mismatchUpper viewA viewB < SEQ_MOD - 1
    ∧ mismatchSpec viewA viewB = 2
    ∧ mismatch viewA viewB = some (mismatchSpec viewA viewB) :=
  ⟨by decide, by decide, (mismatch_refines_spec viewA viewB (by decide)).1⟩

/-! ## `acquire` -/

/-- The constructor from a ledger returns a view when assertions are compiled
out or the skip-list entry, if any, names the previous sequence; the view it
returns has the hash and the sequence of the ledger, and it adds no job. -/
theorem ofLedger_spec (ndebug : Bool) (ledger : Ledger) (j : Journal) :
    (ndebug = true ∨ (∀ hashIndex, ledger.skip = some hashIndex →
        hashIndex.lastLedgerSequence = seqSub ledger.seq 1) →
      ∃ view logs, RCLValidatedLedger.ofLedger ndebug ledger j = Ran.returned (view, logs))
    ∧ ∀ view logs, RCLValidatedLedger.ofLedger ndebug ledger j = Ran.returned (view, logs) →
        view.seq = ledger.seq ∧ view.id = ledger.hash
        ∧ logs.filter AcquireEvent.isAddJob = [] := by
  unfold RCLValidatedLedger.ofLedger
  cases hs : ledger.skip with
  | none =>
    simp only []
    refine ⟨fun _ => ⟨_, _, rfl⟩, ?_⟩
    intro view logs h
    injection h with h
    injection h with h1 h2
    subst h1; subst h2
    refine ⟨rfl, rfl, ?_⟩
    split <;> rfl
  | some hashIndex =>
    simp only []
    by_cases hc : ndebug = true ∨ hashIndex.lastLedgerSequence = seqSub ledger.seq 1
    · rw [if_pos hc]
      refine ⟨fun _ => ⟨_, _, rfl⟩, ?_⟩
      intro view logs h
      injection h with h
      injection h with h1 h2
      subst h1; subst h2
      exact ⟨rfl, rfl, rfl⟩
    · rw [if_neg hc]
      refine ⟨?_, ?_⟩
      · intro h
        exfalso
        apply hc
        rcases h with h | h
        · exact Or.inl h
        · exact Or.inr (h hashIndex rfl)
      · intro view logs h
        exact absurd h (by simp)

/-- With assertions compiled in, `acquire` aborts when the store holds a
ledger that breaks one of the asserted invariants. -/
theorem acquire_aborts (self : RCLValidationsAdaptor) (hash : uint256) (ledger : Ledger)
    (hg : self.getLedgerByHash hash = some ledger) (hbad : ¬ assertsHold ledger hash) :
    (self.acquire false hash).result = Ran.aborted := by
  simp only [RCLValidationsAdaptor.acquire, hg, Bool.false_eq_true, false_or]
  by_cases h1 : ledger.isOpen = false ∧ ledger.isImmutable = true
  · rw [if_pos h1]
    by_cases h2 : ledger.hash = hash
    · rw [if_pos h2]
      cases hs : ledger.skip with
      | none =>
        exfalso
        apply hbad
        refine ⟨h1, h2, ?_⟩
        intro hashIndex h
        rw [hs] at h
        exact absurd h (by simp)
      | some hashIndex =>
        have h3 : ¬ hashIndex.lastLedgerSequence = seqSub ledger.seq 1 := by
          intro h3
          apply hbad
          refine ⟨h1, h2, ?_⟩
          intro hashIndex2 h
          rw [hs] at h
          have : hashIndex = hashIndex2 := Option.some.inj h
          subst this
          exact h3
        simp only [RCLValidatedLedger.ofLedger, hs, Bool.false_eq_true, false_or, if_neg h3]
    · rw [if_neg h2]
  · rw [if_neg h1]

/-- C14, as stated, fails with assertions compiled in: a store that holds an
open ledger whose hash is the requested one, or a closed one whose skip-list
entry does not name the previous sequence, makes `acquire` abort at an
`assert`, so no view is returned although the ledger is held and its hash
equals the request. -/
theorem acquire_counterexample :
    (exampleOpenAdaptor.getLedgerByHash 77 = some exampleOpenLedger
      ∧ exampleOpenLedger.hash = 77
      ∧ (exampleOpenAdaptor.acquire false 77).result = Ran.aborted
      ∧ ¬ ∃ view, (exampleOpenAdaptor.acquire false 77).result = Ran.returned (some view))
    ∧ (exampleSkewAdaptor.getLedgerByHash 77 = some exampleSkewLedger
      ∧ exampleSkewLedger.hash = 77
      ∧ exampleSkewLedger.isOpen = false ∧ exampleSkewLedger.isImmutable = true
      ∧ (exampleSkewAdaptor.acquire false 77).result = Ran.aborted
      ∧ ¬ ∃ view, (exampleSkewAdaptor.acquire false 77).result
          = Ran.returned (some view)) := by
  have h1 : (exampleOpenAdaptor.acquire false 77).result = Ran.aborted := rfl
  have h2 : (exampleSkewAdaptor.acquire false 77).result = Ran.aborted := rfl
  refine ⟨⟨rfl, rfl, h1, ?_⟩, ⟨rfl, rfl, rfl, rfl, h2, ?_⟩⟩
  · rintro ⟨view, hv⟩
    rw [h1] at hv
    exact absurd hv (by simp)
  · rintro ⟨view, hv⟩
    rw [h2] at hv
    exact absurd hv (by simp)

/-- C14 (amended): with the ledger store a partial map from hash to ledger,
`acquire(hash)` returns `none` exactly when the store holds no ledger for
`hash`, and it then adds exactly one job, a fetch of that hash with reason
`CONSENSUS`; when the store holds a ledger it adds no job, and any view it
returns has the sequence and the hash of that ledger, hence the requested
hash when the two are equal; it returns such a view when assertions are
compiled out or all the asserted invariants hold (the ledger is closed and
immutable, its hash is the requested one, and its skip-list entry, if any,
names the previous sequence), and with assertions compiled in and one of
them broken it aborts. -/
theorem acquire_spec (ndebug : Bool) (self : RCLValidationsAdaptor) (hash : uint256) :
    ((self.acquire ndebug hash).result = Ran.returned none ↔
        self.getLedgerByHash hash = none)
    ∧ (self.getLedgerByHash hash = none →
        (self.acquire ndebug hash).events.filter AcquireEvent.isAddJob
          = [AcquireEvent.addJob JobType.jtADVANCE "getConsensusLedger"
              { hash := hash, seq := 0, reason := Reason.CONSENSUS }])
    ∧ (∀ ledger, self.getLedgerByHash hash = some ledger →
        (self.acquire ndebug hash).events.filter AcquireEvent.isAddJob = []
        ∧ (∀ view, (self.acquire ndebug hash).result = Ran.returned (some view) →
            view.seq = ledger.seq ∧ view.id = ledger.hash
            ∧ (ledger.hash = hash → view.id = hash))
        ∧ (ndebug = true ∨ assertsHold ledger hash →
            ∃ view, (self.acquire ndebug hash).result = Ran.returned (some view)
              ∧ view.seq = ledger.seq ∧ view.id = ledger.hash
              ∧ (ledger.hash = hash → view.id = hash))
        ∧ (ndebug = false → ¬ assertsHold ledger hash →
            (self.acquire ndebug hash).result = Ran.aborted)) := by
  cases hg : self.getLedgerByHash hash with
  | none =>
    refine ⟨?_, ?_, ?_⟩
    · simp [RCLValidationsAdaptor.acquire, hg]
    · intro _
      simp only [RCLValidationsAdaptor.acquire, hg]
      split <;> rfl
    · intro ledger h
      exact absurd h (by simp)
  | some ledger =>
    have hof := ofLedger_spec ndebug ledger self.j_
    have hret : ∀ view, (self.acquire ndebug hash).result = Ran.returned (some view) →
        view.seq = ledger.seq ∧ view.id = ledger.hash
        ∧ (self.acquire ndebug hash).events.filter AcquireEvent.isAddJob = [] := by
      intro view h
      simp only [RCLValidationsAdaptor.acquire, hg] at h ⊢
      split at h
      · split at h
        · cases hr : RCLValidatedLedger.ofLedger ndebug ledger self.j_ with
          | aborted => rw [hr] at h; simp at h
          | returned p =>
            obtain ⟨v, logs⟩ := p
            rw [hr] at h
            simp only [Ran.returned.injEq, Option.some.injEq] at h
            subst h
            obtain ⟨h1, h2, h3⟩ := hof.2 v logs hr
            refine ⟨h1, h2, ?_⟩
            simp only [*, if_true, List.filter_append]
            simp [h3, List.filter, AcquireEvent.isAddJob]
        · simp at h
      · simp at h
    have hnojob : (self.acquire ndebug hash).events.filter AcquireEvent.isAddJob = [] := by
      simp only [RCLValidationsAdaptor.acquire, hg]
      split
      · split
        · cases hr : RCLValidatedLedger.ofLedger ndebug ledger self.j_ with
          | aborted => rfl
          | returned p =>
            obtain ⟨v, logs⟩ := p
            simp only [List.filter_append]
            simp [(hof.2 v logs hr).2.2, List.filter, AcquireEvent.isAddJob]
        · rfl
      · rfl
    refine ⟨?_, ?_, ?_⟩
    · constructor
      · intro h
        exfalso
        simp only [RCLValidationsAdaptor.acquire, hg] at h
        split at h
        · split at h
          · cases hr : RCLValidatedLedger.ofLedger ndebug ledger self.j_ with
            | aborted => rw [hr] at h; simp at h
            | returned p => rw [hr] at h; simp at h
          · simp at h
        · simp at h
      · intro h
        exact absurd h (by simp)
    · intro h
      exact absurd h (by simp)
    · intro ledger2 h2
      have hl : ledger = ledger2 := Option.some.inj h2
      subst hl
      refine ⟨hnojob, ?_, ?_, ?_⟩
      · intro view hv
        obtain ⟨h1, h2, _⟩ := hret view hv
        exact ⟨h1, h2, fun he => by rw [h2, he]⟩
      · intro hok
        have h1 : ndebug = true ∨ (ledger.isOpen = false ∧ ledger.isImmutable = true) := by
          rcases hok with h | h
          · exact Or.inl h
          · exact Or.inr h.1
        have h2 : ndebug = true ∨ ledger.hash = hash := by
          rcases hok with h | h
          · exact Or.inl h
          · exact Or.inr h.2.1
        have h3 : ndebug = true ∨ (∀ hashIndex, ledger.skip = some hashIndex →
            hashIndex.lastLedgerSequence = seqSub ledger.seq 1) := by
          rcases hok with h | h
          · exact Or.inl h
          · exact Or.inr h.2.2
        obtain ⟨v, logs, hr⟩ := hof.1 h3
        have hres : (self.acquire ndebug hash).result = Ran.returned (some v) := by
          simp only [RCLValidationsAdaptor.acquire, hg, if_pos h1, if_pos h2, hr]
        obtain ⟨hs1, hs2, _⟩ := hof.2 v logs hr
        exact ⟨v, hres, hs1, hs2, fun he => by rw [hs2, he]⟩
      · intro hnd hbad
        subst hnd
        exact acquire_aborts self hash ledger hg hbad

/-- Witness for C14 (amended): the store holds a closed ledger for hash 77
that meets the asserted invariants, and none for hash 5; assertions are
compiled in. -/
theorem acquire_spec_witness :
    (exampleAdaptor.acquire false 5).result = Ran.returned none
    ∧ (exampleAdaptor.acquire false 5).events.filter AcquireEvent.isAddJob
        = [AcquireEvent.addJob JobType.jtADVANCE "getConsensusLedger"
            { hash := 5, seq := 0, reason := Reason.CONSENSUS }]
    ∧ (exampleAdaptor.acquire false 77).events.filter AcquireEvent.isAddJob = []
    ∧ ∃ view, (exampleAdaptor.acquire false 77).result = Ran.returned (some view)
        ∧ view.seq = 3 ∧ view.id = 77 :=
  ⟨(acquire_spec false exampleAdaptor 5).1.mpr rfl,
   (acquire_spec false exampleAdaptor 5).2.1 rfl,
   ((acquire_spec false exampleAdaptor 77).2.2 exampleLedger rfl).1,
   match ((acquire_spec false exampleAdaptor 77).2.2 exampleLedger rfl).2.2.1
      (Or.inr ⟨⟨rfl, rfl⟩, rfl, fun hashIndex h => by cases h; rfl⟩) with
   | ⟨view, hres, hseq, hid, _⟩ => ⟨view, hres, hseq, hid⟩⟩

end ripple
